import Mathlib

/-!
Shallow embedding of the Bitespeed contact-identity-resolution service.

The embedding follows the TypeScript sources:
* `ContactRepository` (store access: create / find / update, soft-delete aware),
* `ContactService` (create primary/secondary, search, chain fetch, merge,
  consolidation),
* `IdentityService.identifyContact` and its branch handlers,
* `ContactMatcher` (shared-attribute linking and connected-component grouping).

The persistent store is modelled as a list of contact rows plus the
auto-increment counter.  `createdAt` timestamps of newly inserted rows are
taken from the same monotone counter, mirroring the monotonically increasing
database clock.  Optional columns are `Option` values; the request's absent
fields are modelled as `none`, matching the `null` value the service compares
against with strict equality.
-/

namespace Bitespeed

inductive LinkPrecedence where
  | primary
  | secondary
deriving DecidableEq, Repr

structure Contact where
  id : Nat
  email : Option String
  phoneNumber : Option String
  linkedId : Option Nat
  linkPrecedence : LinkPrecedence
  createdAt : Nat
  deletedAt : Option Nat
deriving DecidableEq, Repr

structure Store where
  contacts : List Contact
  nextId : Nat
deriving DecidableEq, Repr

/-- Comparator used for `orderBy: { createdAt: 'asc' }`. -/
def byCreatedAt (a b : Contact) : Bool :=
  decide (a.createdAt ≤ b.createdAt)

/-- Ordered retrieval / JS `Array.prototype.sort`: modelled as an insertion
sort on the comparator (a stable sort; none of the statements below depend
on the order of ties). -/
def sortWith (le : Contact → Contact → Bool) (l : List Contact) : List Contact :=
  List.insertionSort (fun a b => le a b = true) l

def precRank : LinkPrecedence → Nat
  | .primary => 0
  | .secondary => 1

/-- Comparator for `orderBy: [{ linkPrecedence: 'asc' }, { createdAt: 'asc' }]`
(the enum declares `primary` before `secondary`). -/
def byPrecedenceThenCreatedAt (a b : Contact) : Bool :=
  decide (precRank a.linkPrecedence < precRank b.linkPrecedence) ||
    (precRank a.linkPrecedence == precRank b.linkPrecedence &&
      decide (a.createdAt ≤ b.createdAt))

instance : IsTotal Contact (fun a b => byCreatedAt a b = true) :=
  ⟨fun a b => by
    simp only [byCreatedAt, decide_eq_true_eq]
    omega⟩

instance : IsTrans Contact (fun a b => byCreatedAt a b = true) :=
  ⟨fun a b c hab hbc => by
    simp only [byCreatedAt, decide_eq_true_eq] at hab hbc ⊢
    omega⟩

instance : IsTotal Contact (fun a b => byPrecedenceThenCreatedAt a b = true) :=
  ⟨fun a b => by
    simp only [byPrecedenceThenCreatedAt, Bool.or_eq_true, Bool.and_eq_true,
      decide_eq_true_eq, beq_iff_eq]
    omega⟩

instance : IsTrans Contact (fun a b => byPrecedenceThenCreatedAt a b = true) :=
  ⟨fun a b c hab hbc => by
    simp only [byPrecedenceThenCreatedAt, Bool.or_eq_true, Bool.and_eq_true,
      decide_eq_true_eq, beq_iff_eq] at hab hbc ⊢
    omega⟩

/-! ## ContactRepository -/

/-- `ContactRepository.createContact`: inserts a row with the next id from the
auto-increment sequence and the current clock as `createdAt`. -/
def createContact (s : Store) (email phoneNumber : Option String)
    (linkedId : Option Nat) (linkPrecedence : LinkPrecedence) : Contact × Store :=
  let c : Contact :=
    { id := s.nextId, email := email, phoneNumber := phoneNumber,
      linkedId := linkedId, linkPrecedence := linkPrecedence,
      createdAt := s.nextId, deletedAt := none }
  (c, { contacts := s.contacts ++ [c], nextId := s.nextId + 1 })

/-- The `where` clause of `ContactRepository.findContactsByEmailOrPhone`:
active row matching the email clause or the phone clause (a clause is only
added for a non-null request field). -/
def matchesEmailOrPhone (email phoneNumber : Option String) (c : Contact) : Bool :=
  c.deletedAt == none &&
    ((email.isSome && c.email == email) ||
      (phoneNumber.isSome && c.phoneNumber == phoneNumber))

/-- `ContactRepository.findContactsByEmailOrPhone`: returns `[]` when both
fields are null; otherwise all active rows matching either provided field,
ordered by `createdAt` ascending. -/
def findContactsByEmailOrPhone (s : Store) (email phoneNumber : Option String) :
    List Contact :=
  if email == none && phoneNumber == none then []
  else sortWith byCreatedAt (s.contacts.filter (matchesEmailOrPhone email phoneNumber))

/-- `ContactRepository.getAllLinkedContacts`: resolve the owning primary id
(the row itself when flagged primary, else its `linkedId`), then fetch that
primary plus every active row whose `linkedId` points at it, ordered by
precedence then `createdAt`.  A falsy primary id (JS: `null` or `0`) returns
just the row itself. -/
def getAllLinkedContacts (s : Store) (contactId : Nat) : List Contact :=
  match s.contacts.find? (fun c => c.id == contactId && c.deletedAt == none) with
  | none => []
  | some contact =>
      let primaryContactId : Option Nat :=
        if contact.linkPrecedence == .primary then some contact.id else contact.linkedId
      match primaryContactId with
      | none => [contact]
      | some 0 => [contact]
      | some pid =>
          sortWith byPrecedenceThenCreatedAt (s.contacts.filter (fun c =>
            c.deletedAt == none && (c.id == pid || c.linkedId == some pid)))

/-- Prisma-style partial update: a `none` field is left unchanged, a
`some v` field is set to `v` (which may itself be null). -/
structure UpdateContactInput where
  phoneNumber : Option (Option String) := none
  email : Option (Option String) := none
  linkedId : Option (Option Nat) := none
  linkPrecedence : Option LinkPrecedence := none
deriving Repr

def applyUpdate (u : UpdateContactInput) (c : Contact) : Contact :=
  { c with
    phoneNumber := u.phoneNumber.getD c.phoneNumber
    email := u.email.getD c.email
    linkedId := u.linkedId.getD c.linkedId
    linkPrecedence := u.linkPrecedence.getD c.linkPrecedence }

/-- `ContactRepository.updateContactLinkage`: `update` keyed on the id alone.
A missing row makes Prisma throw, surfaced as a failure result (`none`) with
the store untouched. -/
def updateContactLinkage (s : Store) (contactId : Nat) (u : UpdateContactInput) :
    Option Contact × Store :=
  match s.contacts.find? (fun c => c.id == contactId) with
  | none => (none, s)
  | some c =>
      let c' := applyUpdate u c
      (some c',
        { s with contacts := s.contacts.map (fun d => if d.id == contactId then c' else d) })

/-! ## ContactService -/

def createPrimaryContact (s : Store) (email phoneNumber : Option String) :
    Contact × Store :=
  createContact s email phoneNumber none .primary

def createSecondaryContact (s : Store) (primaryContactId : Nat)
    (email phoneNumber : Option String) : Contact × Store :=
  createContact s email phoneNumber (some primaryContactId) .secondary

structure ContactSearchResult where
  contacts : List Contact
  primaryContact : Option Contact
  secondaryContacts : List Contact
deriving Repr

/-- The `reduce` in `findExistingContacts` / `handleExistingChain`: keep the
earlier-created element; on a `createdAt` tie the later list element wins,
exactly as `oldest.createdAt < current.createdAt ? oldest : current`. -/
def oldestOf (h : Contact) (t : List Contact) : Contact :=
  t.foldl (fun oldest current =>
    if oldest.createdAt < current.createdAt then oldest else current) h

/-- `ContactService.findExistingContacts`: candidate query plus the
primary/secondary split; `primaryContact` is the oldest primary candidate. -/
def findExistingContacts (s : Store) (email phoneNumber : Option String) :
    ContactSearchResult :=
  let contacts := findContactsByEmailOrPhone s email phoneNumber
  let primaryContacts := contacts.filter (fun c => c.linkPrecedence == .primary)
  let secondaryContacts := contacts.filter (fun c => c.linkPrecedence == .secondary)
  let primaryContact :=
    match primaryContacts with
    | [] => none
    | h :: t => some (oldestOf h t)
  { contacts := contacts, primaryContact := primaryContact,
    secondaryContacts := secondaryContacts }

def getLinkedContactChain (s : Store) (contactId : Nat) : List Contact :=
  getAllLinkedContacts s contactId

def convertPrimaryToSecondary (s : Store) (contactId newPrimaryId : Nat) :
    Option Contact × Store :=
  updateContactLinkage s contactId
    { linkPrecedence := some .secondary, linkedId := some (some newPrimaryId) }

/-- One iteration of the re-pointing loop in
`ContactService.mergeContactChains`: a snapshot row flagged secondary (other
than the newer primary itself) is updated with `linkedId := olderPrimaryId`
together with `linkPrecedence := primary` — the literal update payload of
the source. -/
def mergeStep (olderPrimaryId newerPrimaryId : Nat)
    (acc : Store × List Contact) (contact : Contact) : Store × List Contact :=
  if contact.id != newerPrimaryId && contact.linkPrecedence == .secondary then
    match updateContactLinkage acc.1 contact.id
        { linkedId := some (some olderPrimaryId),
          linkPrecedence := some .primary } with
    | (some updated, s') => (s', acc.2 ++ [updated])
    | (none, s') => (s', acc.2)
  else acc

/-- `ContactService.mergeContactChains`: fetch the newer primary's chain,
demote the newer primary to secondary under the older primary, then run the
re-pointing loop over the snapshot.  Returns the updated rows. -/
def mergeContactChains (s : Store) (olderPrimaryId newerPrimaryId : Nat) :
    Store × List Contact :=
  let newerChainContacts := getAllLinkedContacts s newerPrimaryId
  let step1 : Store × List Contact :=
    match newerChainContacts.find? (fun c => c.id == newerPrimaryId) with
    | some _ =>
        match convertPrimaryToSecondary s newerPrimaryId olderPrimaryId with
        | (some updated, s') => (s', [updated])
        | (none, s') => (s', [])
    | none => (s, [])
  newerChainContacts.foldl (mergeStep olderPrimaryId newerPrimaryId) step1

structure ConsolidatedContact where
  primaryContactId : Nat
  emails : List String
  phoneNumbers : List String
  secondaryContactIds : List Nat
deriving DecidableEq, Repr

instance : DecidableEq (Except String ConsolidatedContact) := fun x y =>
  match x, y with
  | .ok a, .ok b =>
      if h : a = b then isTrue (by rw [h]) else isFalse (by simp [h])
  | .error a, .error b =>
      if h : a = b then isTrue (by rw [h]) else isFalse (by simp [h])
  | .ok _, .error _ => isFalse (by simp)
  | .error _, .ok _ => isFalse (by simp)

/-- JS `Set` insertion: append the value unless already present. -/
def setAdd (acc : List String) (v : String) : List String :=
  if v ∈ acc then acc else acc ++ [v]

/-- Insertion-ordered deduplication, the JS `Array.from(new Set(...))`
behaviour over a traversal order. -/
def setInsertAll (acc : List String) (vs : List String) : List String :=
  vs.foldl setAdd acc

/-- `ContactService.consolidateContactInfo`: take the chain of the given id,
find its primary-flagged row, sort the secondary-flagged rows by `createdAt`,
then collect emails and phone numbers in insertion order (primary first,
then the sorted secondaries). -/
def consolidateContactInfo (s : Store) (primaryContactId : Nat) :
    Option ConsolidatedContact :=
  let allContacts := getAllLinkedContacts s primaryContactId
  match allContacts.find? (fun c => c.linkPrecedence == .primary) with
  | none => none
  | some primaryContact =>
      let secondaryContacts :=
        sortWith byCreatedAt (allContacts.filter (fun c => c.linkPrecedence == .secondary))
      let emails :=
        setInsertAll [] (primaryContact.email.toList ++ secondaryContacts.filterMap (·.email))
      let phoneNumbers :=
        setInsertAll []
          (primaryContact.phoneNumber.toList ++ secondaryContacts.filterMap (·.phoneNumber))
      some { primaryContactId := primaryContact.id, emails := emails,
             phoneNumbers := phoneNumbers,
             secondaryContactIds := secondaryContacts.map (·.id) }

/-! ## IdentityService -/

def msgFailedConsolidate : String := "Failed to consolidate contact information"
def msgNoPrimaryInSearch : String := "No primary contact found in search results"
def msgNoPrimaryMultiple : String := "No primary contact found in multiple primaries scenario"
def msgPrimaryAssertion : String := "primary contact assertion failed"

def consolidateAndReturn (s : Store) (primaryContactId : Nat) :
    Except String ConsolidatedContact × Store :=
  match consolidateContactInfo s primaryContactId with
  | some data => (.ok data, s)
  | none => (.error msgFailedConsolidate, s)

/-- Branch A: create a fresh primary and answer from it directly. -/
def handleNoExistingContacts (s : Store) (email phoneNumber : Option String) :
    Except String ConsolidatedContact × Store :=
  let (primaryContact, s') := createPrimaryContact s email phoneNumber
  (.ok { primaryContactId := primaryContact.id,
         emails := primaryContact.email.toList,
         phoneNumbers := primaryContact.phoneNumber.toList,
         secondaryContactIds := [] }, s')

/-- Branch B: no mutation; consolidate the chain of
`searchResult.primaryContact` (the oldest primary candidate), falling back to
the first primary-flagged candidate. -/
def handleExactDuplicate (s : Store) (searchResult : ContactSearchResult) :
    Except String ConsolidatedContact × Store :=
  let primaryContact :=
    match searchResult.primaryContact with
    | some p => some p
    | none => searchResult.contacts.find? (fun c => c.linkPrecedence == LinkPrecedence.primary)
  match primaryContact with
  | none => (.error msgNoPrimaryInSearch, s)
  | some p => consolidateAndReturn s p.id

/-- `IdentityService.needsSecondaryContact` (the branch-C rule against the
direct primary only). -/
def needsSecondaryContact (primaryContact : Contact)
    (email phoneNumber : Option String) : Bool :=
  if primaryContact.email == email && primaryContact.phoneNumber == phoneNumber then
    false
  else if (primaryContact.email == email && primaryContact.phoneNumber != phoneNumber &&
            phoneNumber != none) ||
          (primaryContact.phoneNumber == phoneNumber && primaryContact.email != email &&
            email != none) then
    true
  else if primaryContact.email == none && email != none &&
          primaryContact.phoneNumber == phoneNumber then
    true
  else if primaryContact.phoneNumber == none && phoneNumber != none &&
          primaryContact.email == email then
    true
  else
    false

/-- Branch C: the guard in `identifyContact` fires whenever there is some
primary candidate and no secondary candidates; the TS `primaryContact!`
assertion is modelled as a failure result when absent (it would throw). -/
def handleSinglePrimaryContact (s : Store) (searchResult : ContactSearchResult)
    (email phoneNumber : Option String) : Except String ConsolidatedContact × Store :=
  match searchResult.primaryContact with
  | none => (.error msgPrimaryAssertion, s)
  | some primaryContact =>
      if needsSecondaryContact primaryContact email phoneNumber then
        let (_, s') := createSecondaryContact s primaryContact.id email phoneNumber
        consolidateAndReturn s' primaryContact.id
      else
        consolidateAndReturn s primaryContact.id

/-- `IdentityService.checkIfNeedsNewSecondary` (the whole-chain rule used by
branches D and E). -/
def checkIfNeedsNewSecondary (s : Store) (primaryContactId : Nat)
    (email phoneNumber : Option String) : Bool :=
  let allContacts := getLinkedContactChain s primaryContactId
  let exactMatch :=
    allContacts.any (fun c => c.email == email && c.phoneNumber == phoneNumber)
  if exactMatch then false
  else
    let hasNewEmail := email.isSome && !(allContacts.any (fun c => c.email == email))
    let hasNewPhone :=
      phoneNumber.isSome && !(allContacts.any (fun c => c.phoneNumber == phoneNumber))
    let hasMatchingEmail := email.isSome && allContacts.any (fun c => c.email == email)
    let hasMatchingPhone :=
      phoneNumber.isSome && allContacts.any (fun c => c.phoneNumber == phoneNumber)
    (hasNewEmail || hasNewPhone) && (hasMatchingEmail || hasMatchingPhone)

/-- The merge loop of branch D: fold `mergeContactChains` of each younger
primary into the surviving older primary. -/
def mergeAllChains (s : Store) (olderPrimaryId : Nat)
    (newerPrimaries : List Contact) : Store :=
  newerPrimaries.foldl
    (fun st newerPrimary => (mergeContactChains st olderPrimaryId newerPrimary.id).1) s

/-- Branch D: sort the primary candidates by `createdAt`, merge every younger
primary's chain into the oldest, then append one secondary when the
whole-chain rule asks for it. -/
def handleMultiplePrimaryContacts (s : Store) (contacts : List Contact)
    (email phoneNumber : Option String) : Except String ConsolidatedContact × Store :=
  let primaryContacts :=
    sortWith byCreatedAt (contacts.filter (fun c => c.linkPrecedence == .primary))
  match primaryContacts with
  | [] => (.error msgNoPrimaryMultiple, s)
  | olderPrimary :: newerPrimaries =>
      let s₁ := mergeAllChains s olderPrimary.id newerPrimaries
      let s₂ :=
        if checkIfNeedsNewSecondary s₁ olderPrimary.id email phoneNumber then
          (createSecondaryContact s₁ olderPrimary.id email phoneNumber).2
        else s₁
      consolidateAndReturn s₂ olderPrimary.id

/-- Branch E: existing chain with potential new info, plus the self-heal
fallback that promotes the oldest candidate when no primary is flagged. -/
def handleExistingChain (s : Store) (searchResult : ContactSearchResult)
    (email phoneNumber : Option String) : Except String ConsolidatedContact × Store :=
  let primaryContact :=
    match searchResult.primaryContact with
    | some p => some p
    | none => searchResult.contacts.find? (fun c => c.linkPrecedence == LinkPrecedence.primary)
  match primaryContact with
  | some primaryContact =>
      if checkIfNeedsNewSecondary s primaryContact.id email phoneNumber then
        let (_, s') := createSecondaryContact s primaryContact.id email phoneNumber
        consolidateAndReturn s' primaryContact.id
      else
        consolidateAndReturn s primaryContact.id
  | none =>
      match searchResult.contacts with
      | [] => handleNoExistingContacts s email phoneNumber
      | h :: t =>
          let oldestContact := oldestOf h t
          match updateContactLinkage s oldestContact.id
              { linkPrecedence := some .primary, linkedId := some none } with
          | (some updated, s') => consolidateAndReturn s' updated.id
          | (none, _) => handleNoExistingContacts s email phoneNumber

def isExactDuplicate (contacts : List Contact) (email phoneNumber : Option String) : Bool :=
  contacts.any (fun contact =>
    contact.email == email && contact.phoneNumber == phoneNumber)

def hasMultiplePrimaryContacts (contacts : List Contact) : Bool :=
  decide (1 < (contacts.filter (fun c => c.linkPrecedence == .primary)).length)

/-- `IdentityService.identifyContact`: candidate fetch followed by the branch
dispatch, in the source's order: empty set, exact duplicate, "single primary"
(some primary candidate and no secondary candidates), multiple primaries,
existing chain. -/
def identifyContact (s : Store) (email phoneNumber : Option String) :
    Except String ConsolidatedContact × Store :=
  let searchResult := findExistingContacts s email phoneNumber
  if searchResult.contacts.length == 0 then
    handleNoExistingContacts s email phoneNumber
  else if isExactDuplicate searchResult.contacts email phoneNumber then
    handleExactDuplicate s searchResult
  else if searchResult.primaryContact.isSome && searchResult.secondaryContacts.length == 0 then
    handleSinglePrimaryContact s searchResult email phoneNumber
  else if hasMultiplePrimaryContacts searchResult.contacts then
    handleMultiplePrimaryContacts s searchResult.contacts email phoneNumber
  else
    handleExistingChain s searchResult email phoneNumber

/-! ## ContactMatcher -/

def hasSharedEmail (c1 c2 : Contact) : Bool :=
  c1.email.isSome && c2.email.isSome && c1.email == c2.email

def hasSharedPhone (c1 c2 : Contact) : Bool :=
  c1.phoneNumber.isSome && c2.phoneNumber.isSome && c1.phoneNumber == c2.phoneNumber

def shouldLink (c1 c2 : Contact) : Bool :=
  hasSharedEmail c1 c2 || hasSharedPhone c1 c2

/-- `ContactMatcher.findLinkedContacts`: depth-first expansion of a group
with a shared processed set.  The source scans the whole contact list; for
each not-yet-processed contact linked to the base it pushes the contact into
the group, marks its id processed, and recurses from that contact over the
whole list again, threading the group and the processed set.  The source
recursion is bounded because every nested call first marks a fresh id
processed; the explicit `fuel` mirrors that bound (the fuel-0 case is never
reached when `fuel` is at least the number of unprocessed contacts). -/
def findLinkedContacts (allContacts : List Contact) :
    Nat → Contact → List Contact × List Nat → List Contact × List Nat
  | 0, _, state => state
  | fuel + 1, baseContact, state =>
      allContacts.foldl
        (fun st contact =>
          if !(st.2.contains contact.id) && shouldLink baseContact contact then
            findLinkedContacts allContacts fuel contact
              (st.1 ++ [contact], st.2 ++ [contact.id])
          else st)
        state

/-- Outer loop of `ContactMatcher.groupLinkableContacts`: seed a group from
each not-yet-processed contact, expand it, and keep only groups with more
than one member. -/
def groupLinkableGo (allContacts : List Contact) (pending : List Contact)
    (processed : List Nat) (groups : List (List Contact)) : List (List Contact) :=
  match pending with
  | [] => groups
  | contact :: rest =>
      if processed.contains contact.id then
        groupLinkableGo allContacts rest processed groups
      else
        let expanded := findLinkedContacts allContacts allContacts.length contact
          ([contact], processed ++ [contact.id])
        groupLinkableGo allContacts rest expanded.2
          (if 1 < expanded.1.length then groups ++ [expanded.1] else groups)

def groupLinkableContacts (contacts : List Contact) : List (List Contact) :=
  groupLinkableGo contacts contacts [] []

/-! ## Auxiliary notions used by the statements -/

/-- Decidable check of the spec's chain invariants: every active Secondary's
`linkedId` references an active Primary, and every active Primary has a null
`linkedId` (hence each chain carries exactly one Primary-flagged row). -/
def chainInvariants (s : Store) : Bool :=
  s.contacts.all (fun c =>
    !(c.deletedAt == none && c.linkPrecedence == LinkPrecedence.secondary) ||
      (match c.linkedId with
       | none => false
       | some lid =>
           s.contacts.any (fun p =>
             p.id == lid && p.deletedAt == none &&
               p.linkPrecedence == LinkPrecedence.primary))) &&
  s.contacts.all (fun c =>
    !(c.deletedAt == none && c.linkPrecedence == LinkPrecedence.primary) ||
      c.linkedId == none)

/-- Well-formed store: every row's id and every `linkedId` reference lie
below the auto-increment counter. -/
def WellFormed (s : Store) : Prop :=
  ∀ c ∈ s.contacts, c.id < s.nextId ∧ ∀ lid ∈ c.linkedId.toList, lid < s.nextId

instance (s : Store) : Decidable (WellFormed s) :=
  inferInstanceAs (Decidable (∀ c ∈ s.contacts,
    c.id < s.nextId ∧ ∀ lid ∈ c.linkedId.toList, lid < s.nextId))

/-- Keep-first deduplication in its structural form: the head followed by the
deduplication of the tail with the head's occurrences removed.  Extensionally
equal to `setInsertAll []` (proved below); used to reason about insertion
order. -/
def firstOccurrences : List String → List String
  | [] => []
  | v :: rest => v :: firstOccurrences (rest.filter (fun w => !(w == v)))
termination_by l => l.length
decreasing_by
  simp only [List.length_cons]
  exact Nat.lt_succ_of_le (List.length_filter_le _ _)

/-- First-introduction rank of an attribute value within a consolidated
chain: a value carried by the Primary ranks 0 (before every Secondary's);
otherwise one plus the `createdAt` of the earliest secondary carrying it
(`secs` is scanned in order, so pass it sorted by `createdAt`). -/
def introKey (f : Contact → Option String) (primaryContact : Contact)
    (secs : List Contact) (v : String) : Nat :=
  if f primaryContact == some v then 0
  else
    match secs.find? (fun c => f c == some v) with
    | some c => c.createdAt + 1
    | none => 0

/-- Reachability in the shared-attribute graph over a fixed contact list. -/
def Linked (l : List Contact) (c d : Contact) : Prop :=
  Relation.ReflTransGen (fun a b => b ∈ l ∧ shouldLink a b = true) c d

/-- Two contacts land in one computed group. -/
def SameGroup (l : List Contact) (c d : Contact) : Prop :=
  ∃ g ∈ groupLinkableContacts l, c ∈ g ∧ d ∈ g

/-- Number of contacts of `l` whose id is not yet processed; the fuel bound
that makes `findLinkedContacts` behave as the source's unbounded
recursion. -/
def unprocCount (l : List Contact) (proc : List Nat) : Nat :=
  (l.filter (fun x => !(proc.contains x.id))).length

/-- The processed set is closed under shared-attribute edges. -/
def procClosed (l : List Contact) (proc : List Nat) : Prop :=
  ∀ y ∈ l, y.id ∈ proc → ∀ x ∈ l, shouldLink y x = true → x.id ∈ proc

/-- A contact with no shared-attribute path to any other contact of `l`. -/
def Isolated (l : List Contact) (c : Contact) : Prop :=
  ∀ d ∈ l, Linked l c d → d = c

/-- Invariant of each emitted group: seeded, more than one member, members
drawn from `l` and reachable from the seed, duplicate-free ids, and closed
under shared-attribute edges into `l`. -/
def GroupOK (l : List Contact) (g : List Contact) : Prop :=
  (∃ seed rest₀, g = seed :: rest₀ ∧ rest₀ ≠ [] ∧ ∀ x ∈ g, Linked l seed x) ∧
  (∀ x ∈ g, x ∈ l) ∧
  (g.map (fun c => c.id)).Nodup ∧
  (∀ y ∈ g, ∀ x ∈ l, shouldLink y x = true → x.id ∈ g.map (fun c => c.id))

/-- Emitted groups are pairwise id-disjoint. -/
def GroupsDisjoint (groups : List (List Contact)) : Prop :=
  List.Pairwise
    (fun g h => ∀ i ∈ g.map (fun c => c.id), i ∉ h.map (fun c => c.id)) groups

/-- Three contacts for the grouping scenarios: 1 and 2 share email "a";
3 shares nothing. -/
def c8IsoStore : List Contact :=
  [⟨1, some "a", some "1", none, .primary, 1, none⟩,
   ⟨2, some "a", some "2", none, .secondary, 2, none⟩,
   ⟨3, some "b", some "3", none, .primary, 3, none⟩]

/-! ## Concrete scenarios referenced by the theorems -/

/-- Two primaries sharing nothing: Primary1(email "a", phone "1") older,
Primary2(email "b", phone "2") newer. -/
def twoPrimariesStore : Store :=
  ⟨[⟨1, some "a", some "1", none, .primary, 1, none⟩,
    ⟨2, some "b", some "2", none, .primary, 2, none⟩], 3⟩

/-- Older Primary1(email "a", phone "1"), newer Primary2(email "b",
phone "2") owning Secondary3(email "c", phone "2"). -/
def mergeScenarioStore : Store :=
  ⟨[⟨1, some "a", some "1", none, .primary, 1, none⟩,
    ⟨2, some "b", some "2", none, .primary, 2, none⟩,
    ⟨3, some "c", some "2", some 2, .secondary, 3, none⟩], 4⟩

/-- Primary1(email "a", phone "1"), Primary2(email "b", phone "2"), and
Secondary3(email "a", phone "2") linked under Primary2. -/
def dupUnderNewerStore : Store :=
  ⟨[⟨1, some "a", some "1", none, .primary, 1, none⟩,
    ⟨2, some "b", some "2", none, .primary, 2, none⟩,
    ⟨3, some "a", some "2", some 2, .secondary, 3, none⟩], 4⟩

/-- A valid chain whose Primary shares no attribute with its Secondary:
Primary1(email "x", phone "9") with Secondary2(email "a", phone "1"). -/
def hiddenPrimaryStore : Store :=
  ⟨[⟨1, some "x", some "9", none, .primary, 1, none⟩,
    ⟨2, some "a", some "1", some 1, .secondary, 2, none⟩], 3⟩

/-- The store an identify call leaves behind. -/
def identifyStep (s : Store) (email phoneNumber : Option String) : Store :=
  (identifyContact s email phoneNumber).2

/-- Store after the call sequence {a,1}, {b,2}, {c,2}, {a,2} starting from
the empty store. -/
def fourCallsFinal : Store :=
  identifyStep
    (identifyStep
      (identifyStep
        (identifyStep ⟨[], 1⟩ (some "a") (some "1"))
        (some "b") (some "2"))
      (some "c") (some "2"))
    (some "a") (some "2")

/-! # Claims -/

/-- C1: the claim expects the cross-primary merge: with exactly the two
primaries Primary1("a","1") older and Primary2("b","2") newer,
`identify {email "a", phone "2"}` should demote Primary2 under Primary1 and
answer with both emails and both phones.  The code instead takes the
"single primary" branch — its guard only requires some primary candidate and
zero secondary candidates, so it also fires with two primary candidates —
creates a fresh Secondary ("a","2") under Primary1, leaves Primary2 an
untouched Primary, and the response's emails are just ["a"], without "b". -/
theorem C1_cross_primary_merge_not_performed :
    (identifyContact twoPrimariesStore (some "a") (some "2")).1 =
      .ok ⟨1, ["a"], ["1", "2"], [3]⟩ ∧
    (⟨2, some "b", some "2", none, .primary, 2, none⟩ : Contact) ∈
      (identifyContact twoPrimariesStore (some "a") (some "2")).2.contacts := by
  decide

/-- C2: the claim asserts every identify sequence from an
invariant-satisfying store preserves "exactly one Primary per chain, every
Secondary points directly at it".  Refuted: from the empty store (which
satisfies the invariants), the calls {a,1}, {b,2}, {c,2}, {a,2} drive the
last call into the multi-primary merge, whose update payload re-points
contact 3 with `linkPrecedence := primary`; the chain of primary 1 then
carries two Primary-flagged rows. -/
theorem C2_invariants_broken_by_merge :
    chainInvariants ⟨[], 1⟩ = true ∧
    (⟨3, some "c", some "2", some 1, .primary, 3, none⟩ : Contact) ∈
      fourCallsFinal.contacts ∧
    ((getAllLinkedContacts fourCallsFinal 1).filter
      (fun c => c.linkPrecedence == LinkPrecedence.primary)).length = 2 ∧
    chainInvariants fourCallsFinal = false := by
  decide

/-- C3: the claim says `mergeContactChains` re-points every existing
Secondary of the newer primary with `linkPrecedence = Secondary`.  Refuted
at older primary 1, newer primary 2 owning Secondary 3: the newer primary is
demoted correctly, but the re-pointed Secondary 3 ends with
`linkPrecedence = primary` (the literal update payload of the source). -/
theorem C3_merge_flags_repointed_secondary_as_primary :
    (mergeContactChains mergeScenarioStore 1 2).1.contacts =
      [⟨1, some "a", some "1", none, .primary, 1, none⟩,
       ⟨2, some "b", some "2", some 1, .secondary, 2, none⟩,
       ⟨3, some "c", some "2", some 1, .primary, 3, none⟩] := by
  decide

/-- C4 counterexample: the claim says branch D appends a new Secondary iff
the exact requested pair is absent from the merged chain.  Here
`identify {email "a", phone "2"}` on Primary1("a","1"), Primary2("b","2"),
Secondary3("c","2") runs branch D (Primary2 is demoted), the merged chain
holds no contact with the pair ("a","2"), and yet no row is appended,
because both requested values already occur somewhere in the chain. -/
theorem C4_counterexample_no_append_despite_missing_pair :
    (⟨2, some "b", some "2", some 1, .secondary, 2, none⟩ : Contact) ∈
      (identifyContact mergeScenarioStore (some "a") (some "2")).2.contacts ∧
    ((getAllLinkedContacts (identifyContact mergeScenarioStore (some "a") (some "2")).2 1).all
      (fun c => !(c.email == some "a" && c.phoneNumber == some "2"))) = true ∧
    (identifyContact mergeScenarioStore (some "a") (some "2")).2.contacts.length = 3 := by
  decide

/-- C5 counterexample: the claim says branch B resolves to the exact
duplicate candidate's own chain primary.  Here the request ("a","2") finds
exact duplicate contact 3, a Secondary whose chain primary is contact 2,
but the response consolidates contact 1 — the oldest primary among all
candidates — instead. -/
theorem C5_counterexample_wrong_chain_primary :
    isExactDuplicate
      (findExistingContacts dupUnderNewerStore (some "a") (some "2")).contacts
      (some "a") (some "2") = true ∧
    ((getAllLinkedContacts dupUnderNewerStore 3).find?
      (fun c => c.linkPrecedence == LinkPrecedence.primary)).map (·.id) = some 2 ∧
    (identifyContact dupUnderNewerStore (some "a") (some "2")).1 =
      .ok ⟨1, ["a"], ["1"], []⟩ ∧
    (identifyContact dupUnderNewerStore (some "a") (some "2")).2 = dupUnderNewerStore := by
  decide

/-- C6 counterexample: the claim promises that two identify calls with a
pair already present verbatim both return the same `primaryContactId`.  In
the invariant-satisfying store Primary1("x","9") with Secondary2("a","1"),
the pair ("a","1") is present verbatim on contact 2, yet
`identify {email "a", phone "1"}` returns a failure — the candidate set
contains no Primary-flagged row, so no `primaryContactId` is returned at
all (the store is untouched, so the second call fails identically). -/
theorem C6_counterexample_duplicate_pair_fails :
    chainInvariants hiddenPrimaryStore = true ∧
    (⟨2, some "a", some "1", some 1, .secondary, 2, none⟩ : Contact) ∈
      hiddenPrimaryStore.contacts ∧
    (identifyContact hiddenPrimaryStore (some "a") (some "1")).1 =
      .error msgNoPrimaryInSearch ∧
    (identifyContact hiddenPrimaryStore (some "a") (some "1")).2 =
      hiddenPrimaryStore := by
  decide

/-- C10: with both request fields absent, the candidate query short-circuits
to the empty list, the no-match branch runs, and the call succeeds, creating
a Primary whose email and phoneNumber are both null — the core enforces no
at-least-one-field precondition. -/
theorem C10_identify_without_fields_creates_null_primary (s : Store) :
    identifyContact s none none =
      (.ok ⟨s.nextId, [], [], []⟩,
       ⟨s.contacts ++ [⟨s.nextId, none, none, none, .primary, s.nextId, none⟩],
        s.nextId + 1⟩) := rfl

/-- C8 counterexample: the claim says every input contact belongs to exactly
one computed group.  A lone contact forms a singleton component, and the
grouping loop only keeps groups with more than one member, so the contact
belongs to no group at all. -/
theorem C8_counterexample_isolated_contact_in_no_group :
    groupLinkableContacts [⟨1, some "a", some "1", none, .primary, 1, none⟩] = [] := by
  decide

/-! ## Basic lemmas about the store operations -/

theorem applyUpdate_id (u : UpdateContactInput) (c : Contact) :
    (applyUpdate u c).id = c.id := rfl

theorem mem_sortWith {le : Contact → Contact → Bool} {l : List Contact} {c : Contact} :
    c ∈ sortWith le l ↔ c ∈ l :=
  List.mem_insertionSort _

theorem sortWith_perm (le : Contact → Contact → Bool) (l : List Contact) :
    (sortWith le l).Perm l :=
  List.perm_insertionSort _ l

theorem oldestOf_cons (h c : Contact) (t : List Contact) :
    oldestOf h (c :: t) = oldestOf (if h.createdAt < c.createdAt then h else c) t := rfl

theorem oldestOf_mem (t : List Contact) (h : Contact) : oldestOf h t ∈ h :: t := by
  induction t generalizing h with
  | nil => simp [oldestOf]
  | cons c t ih =>
      rw [oldestOf_cons]
      rcases List.mem_cons.mp (ih (if h.createdAt < c.createdAt then h else c)) with h1 | h1
      · rw [h1]
        by_cases hc : h.createdAt < c.createdAt
        · simp [hc]
        · simp [hc]
      · exact List.mem_cons_of_mem _ (List.mem_cons_of_mem _ h1)

theorem oldestOf_le (t : List Contact) (h : Contact) :
    ∀ q ∈ h :: t, (oldestOf h t).createdAt ≤ q.createdAt := by
  induction t generalizing h with
  | nil =>
      intro q hq
      rcases List.mem_cons.mp hq with h1 | h1
      · rw [h1]; exact Nat.le_refl _
      · cases h1
  | cons c t ih =>
      intro q hq
      rw [oldestOf_cons]
      have hmin : (if h.createdAt < c.createdAt then h else c).createdAt ≤ h.createdAt ∧
          (if h.createdAt < c.createdAt then h else c).createdAt ≤ c.createdAt := by
        by_cases hc : h.createdAt < c.createdAt <;> simp [hc] <;> omega
      have hself :=
        ih (if h.createdAt < c.createdAt then h else c)
          (if h.createdAt < c.createdAt then h else c) (List.mem_cons_self _ _)
      rcases List.mem_cons.mp hq with h1 | h1
      · rw [h1]; exact Nat.le_trans hself hmin.1
      · rcases List.mem_cons.mp h1 with h2 | h2
        · rw [h2]; exact Nat.le_trans hself hmin.2
        · exact ih _ q (List.mem_cons_of_mem _ h2)

theorem updateContactLinkage_nextId (s : Store) (i : Nat) (u : UpdateContactInput) :
    ((updateContactLinkage s i u).2).nextId = s.nextId := by
  unfold updateContactLinkage
  cases s.contacts.find? (fun c => c.id == i) <;> rfl

theorem filter_map_update (i : Nat) (c' : Contact) (hc' : c'.id = i)
    (q : Contact → Bool) (hq : ∀ d, q d = true → d.id ≠ i) :
    ∀ l : List Contact,
      (l.map (fun d => if d.id == i then c' else d)).filter q = l.filter q := by
  intro l
  induction l with
  | nil => rfl
  | cons d l ih =>
      rw [List.map_cons, List.filter_cons, List.filter_cons]
      by_cases hdi : d.id = i
      · have h1 : (if d.id == i then c' else d) = c' := by simp [hdi]
        have hqc' : q c' = false := by
          cases hqc : q c' with
          | false => rfl
          | true => exact absurd hc' (hq c' hqc)
        have hqd : q d = false := by
          cases hqd : q d with
          | false => rfl
          | true => exact absurd hdi (hq d hqd)
        rw [h1, hqc', hqd]
        simpa using ih
      · have h1 : (if d.id == i then c' else d) = d := by simp [hdi]
        rw [h1]
        cases hqd : q d
        · simpa using ih
        · simpa using ih

theorem updateContactLinkage_filter (s : Store) (i : Nat) (u : UpdateContactInput)
    (q : Contact → Bool) (hq : ∀ d, q d = true → d.id ≠ i) :
    ((updateContactLinkage s i u).2).contacts.filter q = s.contacts.filter q := by
  unfold updateContactLinkage
  cases hfind : s.contacts.find? (fun c => c.id == i) with
  | none => rfl
  | some c =>
      have hci : c.id = i := by simpa using List.find?_some hfind
      simpa using
        filter_map_update i (applyUpdate u c) (by rw [applyUpdate_id]; exact hci) q hq
          s.contacts

theorem updateContactLinkage_mem (s : Store) (i : Nat) (u : UpdateContactInput)
    (c : Contact) (hc : c ∈ s.contacts) (hne : c.id ≠ i) :
    c ∈ ((updateContactLinkage s i u).2).contacts := by
  have hq : ∀ d : Contact, (!(d.id == i)) = true → d.id ≠ i := by
    intro d hd
    simpa using hd
  have h := updateContactLinkage_filter s i u (fun d => !(d.id == i)) hq
  have hcf : c ∈ s.contacts.filter (fun d => !(d.id == i)) :=
    List.mem_filter.mpr ⟨hc, by simpa using hne⟩
  rw [← h] at hcf
  exact List.mem_of_mem_filter hcf

theorem mergeStep_frame (olderId newerId : Nat) (q : Contact → Bool)
    (acc : Store × List Contact) (contact : Contact)
    (hq : ∀ d, q d = true → d.id ≠ contact.id) :
    ((mergeStep olderId newerId acc contact).1).contacts.filter q =
      acc.1.contacts.filter q ∧
    ((mergeStep olderId newerId acc contact).1).nextId = acc.1.nextId := by
  have h1 : (mergeStep olderId newerId acc contact).1 =
      (if contact.id != newerId && contact.linkPrecedence == LinkPrecedence.secondary then
        (updateContactLinkage acc.1 contact.id
          { linkedId := some (some olderId), linkPrecedence := some .primary }).2
      else acc.1) := by
    unfold mergeStep
    by_cases hcond :
        (contact.id != newerId && contact.linkPrecedence == LinkPrecedence.secondary) = true
    · rw [if_pos hcond, if_pos hcond]
      rcases hup : updateContactLinkage acc.1 contact.id
          { linkedId := some (some olderId), linkPrecedence := some .primary } with ⟨o, s'⟩
      cases o <;> rfl
    · rw [if_neg hcond, if_neg hcond]
  rw [h1]
  by_cases hcond :
      (contact.id != newerId && contact.linkPrecedence == LinkPrecedence.secondary) = true
  · rw [if_pos hcond]
    exact ⟨updateContactLinkage_filter _ _ _ q hq, updateContactLinkage_nextId _ _ _⟩
  · rw [if_neg hcond]
    exact ⟨rfl, rfl⟩

theorem mergeLoop_frame (olderId newerId : Nat) (q : Contact → Bool) :
    ∀ (l : List Contact) (init : Store × List Contact),
      (∀ d, q d = true → ∀ x ∈ l, d.id ≠ x.id) →
      ((l.foldl (mergeStep olderId newerId) init).1.contacts.filter q =
          init.1.contacts.filter q ∧
        (l.foldl (mergeStep olderId newerId) init).1.nextId = init.1.nextId) := by
  intro l
  induction l with
  | nil => exact fun init _ => ⟨rfl, rfl⟩
  | cons x l ih =>
      intro init hq
      have hstep :=
        mergeStep_frame olderId newerId q init x (fun d hd => hq d hd x (List.mem_cons_self _ _))
      have hrest :=
        ih (mergeStep olderId newerId init x)
          (fun d hd y hy => hq d hd y (List.mem_cons_of_mem _ hy))
      rw [List.foldl_cons]
      exact ⟨hrest.1.trans hstep.1, hrest.2.trans hstep.2⟩

theorem mergeContactChains_frame (s : Store) (olderId newerId : Nat) (q : Contact → Bool)
    (hq : ∀ d, q d = true →
      d.id ∉ (getAllLinkedContacts s newerId).map (fun c => c.id)) :
    (mergeContactChains s olderId newerId).1.contacts.filter q = s.contacts.filter q ∧
    (mergeContactChains s olderId newerId).1.nextId = s.nextId := by
  have hq' : ∀ d, q d = true → ∀ x ∈ getAllLinkedContacts s newerId, d.id ≠ x.id := by
    intro d hd x hx heq
    exact hq d hd (List.mem_map.mpr ⟨x, hx, heq.symm⟩)
  simp only [mergeContactChains]
  cases hfind : (getAllLinkedContacts s newerId).find? (fun c => c.id == newerId) with
  | none =>
      exact mergeLoop_frame olderId newerId q _ (s, []) hq'
  | some m =>
      have hmchain : m ∈ getAllLinkedContacts s newerId := List.mem_of_find?_eq_some hfind
      have hmid : m.id = newerId := by simpa using List.find?_some hfind
      have hqn : ∀ d, q d = true → d.id ≠ newerId := by
        intro d hd
        exact fun heq => hq d hd (List.mem_map.mpr ⟨m, hmchain, by rw [heq, hmid]⟩)
      have hstep1 :
          (match convertPrimaryToSecondary s newerId olderId with
            | (some updated, s') => ((s', [updated]) : Store × List Contact)
            | (none, s') => (s', [])).1 =
            (convertPrimaryToSecondary s newerId olderId).2 := by
        rcases hconv : convertPrimaryToSecondary s newerId olderId with ⟨o, s'⟩
        cases o <;> rfl
      rcases hconv : convertPrimaryToSecondary s newerId olderId with ⟨o, s'⟩
      have hs' : s' = (updateContactLinkage s newerId
          { linkPrecedence := some .secondary, linkedId := some (some olderId) }).2 := by
        have : (convertPrimaryToSecondary s newerId olderId).2 = s' := by rw [hconv]
        rw [← this]
        rfl
      have hfilter : s'.contacts.filter q = s.contacts.filter q := by
        rw [hs']
        exact updateContactLinkage_filter s newerId _ q hqn
      have hnext : s'.nextId = s.nextId := by
        rw [hs']
        exact updateContactLinkage_nextId s newerId _
      cases o with
      | some updated =>
          have hloop := mergeLoop_frame olderId newerId q
            (getAllLinkedContacts s newerId) (s', [updated]) hq'
          exact ⟨hloop.1.trans hfilter, hloop.2.trans hnext⟩
      | none =>
          have hloop := mergeLoop_frame olderId newerId q
            (getAllLinkedContacts s newerId) (s', []) hq'
          exact ⟨hloop.1.trans hfilter, hloop.2.trans hnext⟩

theorem getAllLinkedContacts_subset (s : Store) (i : Nat) :
    ∀ c ∈ getAllLinkedContacts s i, c ∈ s.contacts := by
  intro c hc
  simp only [getAllLinkedContacts] at hc
  cases hfind : s.contacts.find? (fun d => d.id == i && d.deletedAt == none) with
  | none => rw [hfind] at hc; cases hc
  | some contact =>
      rw [hfind] at hc
      dsimp only at hc
      have hcontact : contact ∈ s.contacts := List.mem_of_find?_eq_some hfind
      rcases hpid : (if contact.linkPrecedence == LinkPrecedence.primary then
          some contact.id else contact.linkedId) with _ | pid
      · rw [hpid] at hc
        rw [List.mem_singleton.mp hc]
        exact hcontact
      · rw [hpid] at hc
        cases pid with
        | zero =>
            rw [List.mem_singleton.mp hc]
            exact hcontact
        | succ n =>
            have := mem_sortWith.mp hc
            exact (List.mem_filter.mp this).1

theorem eq_of_id_eq {l : List Contact} (hnodup : (l.map (fun c => c.id)).Nodup)
    {a b : Contact} (ha : a ∈ l) (hb : b ∈ l) (hid : a.id = b.id) : a = b :=
  List.inj_on_of_nodup_map hnodup ha hb hid

/-- Members of a valid primary's chain: each either is the primary row itself
or points at it. -/
theorem chain_member_property (s : Store) (newer : Contact)
    (hn : newer ∈ s.contacts) (hna : newer.deletedAt = none)
    (hnp : newer.linkPrecedence = .primary)
    (hnodup : (s.contacts.map (fun c => c.id)).Nodup) :
    ∀ m ∈ getAllLinkedContacts s newer.id, m.id = newer.id ∨ m.linkedId = some newer.id := by
  intro m hm
  simp only [getAllLinkedContacts] at hm
  cases hfind : s.contacts.find? (fun d => d.id == newer.id && d.deletedAt == none) with
  | none =>
      rw [hfind] at hm
      cases hm
  | some contact =>
      rw [hfind] at hm
      have hcmem : contact ∈ s.contacts := List.mem_of_find?_eq_some hfind
      have hcprop := List.find?_some hfind
      have hcid : contact.id = newer.id := by
        simp only [Bool.and_eq_true, beq_iff_eq] at hcprop
        exact hcprop.1
      have hceq : contact = newer := eq_of_id_eq hnodup hcmem hn hcid
      rw [hceq] at hm
      dsimp only at hm
      rw [hnp] at hm
      simp only [beq_self_eq_true, eq_self_iff_true, if_true] at hm
      cases hid : newer.id with
      | zero =>
          rw [hid] at hm
          left
          rw [List.mem_singleton.mp hm, hid]
      | succ n =>
          rw [hid] at hm
          have := (List.mem_filter.mp (mem_sortWith.mp hm)).2
          simp only [Bool.and_eq_true, Bool.or_eq_true, beq_iff_eq] at this
          rcases this.2 with h | h
          · left; exact h
          · right; exact h

/-- C9: `mergeContactChains(olderPrimaryId, newerPrimaryId)` writes only rows
of the newer primary's fetched chain: the auto-increment counter and every
row whose id is outside that chain are untouched; in particular the older
primary's record and all of its pre-existing Secondaries survive unchanged. -/
theorem C9_merge_touches_only_newer_chain (s : Store) (older newer : Contact)
    (holder : older ∈ s.contacts) (hnewer : newer ∈ s.contacts)
    (hop : older.linkPrecedence = .primary) (hol : older.linkedId = none)
    (hnp : newer.linkPrecedence = .primary) (hnl : newer.linkedId = none)
    (hna : newer.deletedAt = none)
    (hne : older.id ≠ newer.id)
    (hnodup : (s.contacts.map (fun c => c.id)).Nodup) :
    (mergeContactChains s older.id newer.id).1.nextId = s.nextId ∧
    (mergeContactChains s older.id newer.id).1.contacts.filter
        (fun c => !(((getAllLinkedContacts s newer.id).map (fun d => d.id)).contains c.id)) =
      s.contacts.filter
        (fun c => !(((getAllLinkedContacts s newer.id).map (fun d => d.id)).contains c.id)) ∧
    older ∈ (mergeContactChains s older.id newer.id).1.contacts ∧
    ∀ c ∈ s.contacts, c.linkedId = some older.id →
      c ∈ (mergeContactChains s older.id newer.id).1.contacts := by
  have hq : ∀ d : Contact,
      (!(((getAllLinkedContacts s newer.id).map (fun c => c.id)).contains d.id)) = true →
      d.id ∉ (getAllLinkedContacts s newer.id).map (fun c => c.id) := by
    intro d hd
    simpa using hd
  have hframe := mergeContactChains_frame s older.id newer.id _ hq
  have hnotin : ∀ c ∈ s.contacts,
      (c.id = older.id ∨ c.linkedId = some older.id) →
      c.id ∉ (getAllLinkedContacts s newer.id).map (fun d => d.id) := by
    intro c hcmem hcw hin
    rcases List.mem_map.mp hin with ⟨m, hm, hmid⟩
    have hmmem : m ∈ s.contacts := getAllLinkedContacts_subset s newer.id m hm
    have hmc : m = c := eq_of_id_eq hnodup hmmem hcmem hmid
    have hprop := chain_member_property s newer hnewer hna hnp hnodup m hm
    rcases hprop with hid | hlink
    · -- m.id = newer.id, so c = newer (an id clash); but c carries older's id or link
      have hcn : c = newer := eq_of_id_eq hnodup hcmem hnewer (by rw [← hmc]; exact hid)
      rcases hcw with h | h
      · exact hne (by rw [← h, hcn])
      · rw [hcn, hnl] at h
        cases h
    · rcases hcw with h | h
      · -- c.id = older.id and c.linkedId = some newer.id: then c = older, but older links to none
        have hco : c = older := eq_of_id_eq hnodup hcmem holder h
        rw [hmc, hco, hol] at hlink
        cases hlink
      · rw [hmc, h] at hlink
        exact hne (Option.some.inj hlink)
  have holdermem : older ∈ (mergeContactChains s older.id newer.id).1.contacts := by
    have hqo : (!(((getAllLinkedContacts s newer.id).map (fun d => d.id)).contains older.id))
        = true := by
      simpa using hnotin older holder (Or.inl rfl)
    have : older ∈ s.contacts.filter
        (fun c => !(((getAllLinkedContacts s newer.id).map (fun d => d.id)).contains c.id)) :=
      List.mem_filter.mpr ⟨holder, hqo⟩
    rw [← hframe.1] at this
    exact List.mem_of_mem_filter this
  refine ⟨hframe.2, hframe.1, holdermem, ?_⟩
  intro c hcmem hclink
  have hqc : (!(((getAllLinkedContacts s newer.id).map (fun d => d.id)).contains c.id))
      = true := by
    simpa using hnotin c hcmem (Or.inr hclink)
  have : c ∈ s.contacts.filter
      (fun d => !(((getAllLinkedContacts s newer.id).map (fun e => e.id)).contains d.id)) :=
    List.mem_filter.mpr ⟨hcmem, hqc⟩
  rw [← hframe.1] at this
  exact List.mem_of_mem_filter this

/-! ## Lemmas about the search result and the branch dispatch -/

theorem findExistingContacts_contacts (s : Store) (e p : Option String) :
    (findExistingContacts s e p).contacts = findContactsByEmailOrPhone s e p := rfl

theorem findExistingContacts_primaryContact (s : Store) (e p : Option String) :
    (findExistingContacts s e p).primaryContact =
      (match (findContactsByEmailOrPhone s e p).filter
          (fun c => c.linkPrecedence == LinkPrecedence.primary) with
       | [] => none
       | h :: t => some (oldestOf h t)) := rfl

/-- The oldest primary candidate really is a minimal-`createdAt` primary
candidate. -/
theorem findExistingContacts_primary_some (s : Store) (e p : Option String)
    (pc : Contact) (h : (findExistingContacts s e p).primaryContact = some pc) :
    pc ∈ (findExistingContacts s e p).contacts ∧
    pc.linkPrecedence = LinkPrecedence.primary ∧
    ∀ q ∈ (findExistingContacts s e p).contacts,
      q.linkPrecedence = LinkPrecedence.primary → pc.createdAt ≤ q.createdAt := by
  rw [findExistingContacts_primaryContact] at h
  cases hf : (findContactsByEmailOrPhone s e p).filter
      (fun c => c.linkPrecedence == LinkPrecedence.primary) with
  | nil => rw [hf] at h; cases h
  | cons a t =>
      rw [hf] at h
      have hpc : pc = oldestOf a t := (Option.some.inj h).symm
      have hmemf : pc ∈ a :: t := hpc ▸ oldestOf_mem t a
      rw [← hf] at hmemf
      have hmemf' := List.mem_filter.mp hmemf
      refine ⟨hmemf'.1, by simpa using hmemf'.2, ?_⟩
      intro q hq hqp
      have hqf : q ∈ a :: t := by
        rw [← hf]
        exact List.mem_filter.mpr ⟨hq, by simp [hqp]⟩
      rw [hpc]
      exact oldestOf_le t a q hqf

theorem findExistingContacts_primary_none (s : Store) (e p : Option String)
    (h : (findExistingContacts s e p).primaryContact = none) :
    (findExistingContacts s e p).contacts.find?
      (fun c => c.linkPrecedence == LinkPrecedence.primary) = none := by
  rw [findExistingContacts_primaryContact] at h
  cases hf : (findContactsByEmailOrPhone s e p).filter
      (fun c => c.linkPrecedence == LinkPrecedence.primary) with
  | nil =>
      rw [List.find?_eq_none]
      intro x hx hpx
      have : x ∈ (findContactsByEmailOrPhone s e p).filter
          (fun c => c.linkPrecedence == LinkPrecedence.primary) :=
        List.mem_filter.mpr ⟨hx, hpx⟩
      rw [hf] at this
      cases this
  | cons a t => rw [hf] at h; cases h

theorem consolidateAndReturn_snd (s : Store) (pid : Nat) :
    (consolidateAndReturn s pid).2 = s := by
  unfold consolidateAndReturn
  cases consolidateContactInfo s pid <;> rfl

theorem handleExactDuplicate_snd (s : Store) (sr : ContactSearchResult) :
    (handleExactDuplicate s sr).2 = s := by
  unfold handleExactDuplicate
  cases sr.primaryContact with
  | some q => exact consolidateAndReturn_snd s q.id
  | none =>
      cases sr.contacts.find? (fun c => c.linkPrecedence == LinkPrecedence.primary) with
      | none => rfl
      | some q => exact consolidateAndReturn_snd s q.id

/-- Branch dispatch: a nonempty candidate set with an exact duplicate takes
branch B. -/
theorem identify_eq_handleExactDuplicate (s : Store) (e p : Option String)
    (h1 : (findExistingContacts s e p).contacts ≠ [])
    (h2 : isExactDuplicate (findExistingContacts s e p).contacts e p = true) :
    identifyContact s e p = handleExactDuplicate s (findExistingContacts s e p) := by
  have hlen : ((findExistingContacts s e p).contacts.length == 0) = false := by
    simp only [beq_eq_false_iff_ne, ne_eq, List.length_eq_zero]
    exact h1
  simp only [identifyContact, hlen, h2, Bool.false_eq_true, if_false, if_true]

/-- A member of an active primary row's chain query always consolidates. -/
theorem consolidateContactInfo_isSome (s : Store) (pc : Contact)
    (hmem : pc ∈ s.contacts) (hact : pc.deletedAt = none)
    (hprim : pc.linkPrecedence = LinkPrecedence.primary)
    (hnodup : (s.contacts.map (fun d => d.id)).Nodup) :
    ∃ cc, consolidateContactInfo s pc.id = some cc := by
  have hfind : ∃ c₀, s.contacts.find?
      (fun c => c.id == pc.id && c.deletedAt == none) = some c₀ := by
    cases hf : s.contacts.find? (fun c => c.id == pc.id && c.deletedAt == none) with
    | none =>
        exfalso
        have := List.find?_eq_none.mp hf pc hmem
        simp [hact] at this
    | some c₀ => exact ⟨c₀, rfl⟩
  rcases hfind with ⟨c₀, hf⟩
  have hc₀mem : c₀ ∈ s.contacts := List.mem_of_find?_eq_some hf
  have hc₀id : c₀.id = pc.id := by
    have := List.find?_some hf
    simp only [Bool.and_eq_true, beq_iff_eq] at this
    exact this.1
  have hc₀ : c₀ = pc := eq_of_id_eq hnodup hc₀mem hmem hc₀id
  have hchain : ∃ m ∈ getAllLinkedContacts s pc.id,
      m.linkPrecedence = LinkPrecedence.primary := by
    simp only [getAllLinkedContacts, hf, hc₀, hprim]
    simp only [beq_self_eq_true, eq_self_iff_true, if_true]
    cases hid : pc.id with
    | zero => exact ⟨pc, List.mem_singleton.mpr rfl, hprim⟩
    | succ n =>
        refine ⟨pc, ?_, hprim⟩
        exact mem_sortWith.mpr (List.mem_filter.mpr ⟨hmem, by simp [hact, hid]⟩)
  rcases hchain with ⟨m, hm, hmp⟩
  have hfp : ∃ m', (getAllLinkedContacts s pc.id).find?
      (fun c => c.linkPrecedence == LinkPrecedence.primary) = some m' := by
    cases hfp : (getAllLinkedContacts s pc.id).find?
        (fun c => c.linkPrecedence == LinkPrecedence.primary) with
    | none =>
        exfalso
        have := List.find?_eq_none.mp hfp m hm
        simp [hmp] at this
    | some m' => exact ⟨m', rfl⟩
  rcases hfp with ⟨m', hfp⟩
  have hres : (consolidateContactInfo s pc.id).isSome = true := by
    simp only [consolidateContactInfo, hfp, Option.isSome_some]
  exact Option.isSome_iff_exists.mp hres

/-- C5 (amended): whenever some candidate is an exact duplicate of the
request, identify performs no store mutation and consolidates the chain of
the oldest Primary among the candidates — not necessarily the duplicate's
own chain primary — failing when no candidate is Primary-flagged. -/
theorem C5_branchB_resolves_oldest_primary_candidate (s : Store) (e p : Option String)
    (h1 : (findExistingContacts s e p).contacts ≠ [])
    (h2 : isExactDuplicate (findExistingContacts s e p).contacts e p = true) :
    (identifyContact s e p).2 = s ∧
    (∀ pc, (findExistingContacts s e p).primaryContact = some pc →
      pc ∈ (findExistingContacts s e p).contacts ∧
      pc.linkPrecedence = LinkPrecedence.primary ∧
      (∀ q ∈ (findExistingContacts s e p).contacts,
        q.linkPrecedence = LinkPrecedence.primary → pc.createdAt ≤ q.createdAt) ∧
      (identifyContact s e p).1 = (consolidateAndReturn s pc.id).1) ∧
    ((findExistingContacts s e p).primaryContact = none →
      (identifyContact s e p).1 = .error msgNoPrimaryInSearch) := by
  have hB := identify_eq_handleExactDuplicate s e p h1 h2
  refine ⟨by rw [hB]; exact handleExactDuplicate_snd s _, ?_, ?_⟩
  · intro pc hpc
    obtain ⟨hm, hp, hmin⟩ := findExistingContacts_primary_some s e p pc hpc
    refine ⟨hm, hp, hmin, ?_⟩
    rw [hB]
    unfold handleExactDuplicate
    rw [hpc]
  · intro hnone
    rw [hB]
    unfold handleExactDuplicate
    rw [hnone, findExistingContacts_primary_none s e p hnone]

/-- C5 witness: the amended branch-B theorem at the concrete store
Primary1("a","1"), Primary2("b","2"), Secondary3("a","2") under Primary2,
with request ("a","2"). -/
theorem C5_branchB_resolves_oldest_primary_candidate_witness :
    (findExistingContacts dupUnderNewerStore (some "a") (some "2")).contacts ≠ [] ∧
    isExactDuplicate (findExistingContacts dupUnderNewerStore (some "a") (some "2")).contacts
      (some "a") (some "2") = true ∧
    ((identifyContact dupUnderNewerStore (some "a") (some "2")).2 = dupUnderNewerStore ∧
      (∀ pc, (findExistingContacts dupUnderNewerStore (some "a") (some "2")).primaryContact =
          some pc →
        pc ∈ (findExistingContacts dupUnderNewerStore (some "a") (some "2")).contacts ∧
        pc.linkPrecedence = LinkPrecedence.primary ∧
        (∀ q ∈ (findExistingContacts dupUnderNewerStore (some "a") (some "2")).contacts,
          q.linkPrecedence = LinkPrecedence.primary → pc.createdAt ≤ q.createdAt) ∧
        (identifyContact dupUnderNewerStore (some "a") (some "2")).1 =
          (consolidateAndReturn dupUnderNewerStore pc.id).1) ∧
      ((findExistingContacts dupUnderNewerStore (some "a") (some "2")).primaryContact = none →
        (identifyContact dupUnderNewerStore (some "a") (some "2")).1 =
          .error msgNoPrimaryInSearch)) :=
  ⟨by decide, by decide,
    C5_branchB_resolves_oldest_primary_candidate dupUnderNewerStore (some "a") (some "2")
      (by decide) (by decide)⟩

/-- C6 (amended): when the requested pair is already present verbatim on an
active contact and at least one request field is non-null, identify mutates
nothing and a second call returns exactly the same result; whenever some
candidate is Primary-flagged, the call succeeds (hence both calls yield the
same `primaryContactId`). -/
theorem C6_idempotent_when_pair_present (s : Store) (e p : Option String) (c : Contact)
    (hmem : c ∈ s.contacts) (hact : c.deletedAt = none)
    (he : c.email = e) (hp : c.phoneNumber = p)
    (hne : e ≠ none ∨ p ≠ none)
    (hnodup : (s.contacts.map (fun d => d.id)).Nodup) :
    (identifyContact s e p).2 = s ∧
    identifyContact ((identifyContact s e p).2) e p = identifyContact s e p ∧
    ((∃ q ∈ (findExistingContacts s e p).contacts,
        q.linkPrecedence = LinkPrecedence.primary) →
      ∃ cc, (identifyContact s e p).1 = Except.ok cc) := by
  have hcm : c ∈ (findExistingContacts s e p).contacts := by
    rw [findExistingContacts_contacts]
    unfold findContactsByEmailOrPhone
    have hcond : (e == none && p == none) = false := by
      rcases hne with h | h
      · simp [Option.isSome_iff_ne_none, h]
      · simp [Option.isSome_iff_ne_none, h]
    rw [hcond]
    simp only [Bool.false_eq_true, if_false]
    rw [mem_sortWith]
    refine List.mem_filter.mpr ⟨hmem, ?_⟩
    unfold matchesEmailOrPhone
    rcases hne with h | h
    · simp [hact, he, hp, Option.isSome_iff_ne_none, h]
    · simp [hact, he, hp, Option.isSome_iff_ne_none, h]
  have h1 : (findExistingContacts s e p).contacts ≠ [] :=
    List.ne_nil_of_mem hcm
  have h2 : isExactDuplicate (findExistingContacts s e p).contacts e p = true := by
    unfold isExactDuplicate
    rw [List.any_eq_true]
    exact ⟨c, hcm, by simp [he, hp]⟩
  have hB := identify_eq_handleExactDuplicate s e p h1 h2
  have hsnd : (identifyContact s e p).2 = s := by
    rw [hB]
    exact handleExactDuplicate_snd s _
  refine ⟨hsnd, by rw [hsnd], ?_⟩
  intro ⟨q, hq, hqp⟩
  have hsome : ∃ pc, (findExistingContacts s e p).primaryContact = some pc := by
    rw [findExistingContacts_primaryContact]
    cases hf : (findContactsByEmailOrPhone s e p).filter
        (fun d => d.linkPrecedence == LinkPrecedence.primary) with
    | nil =>
        exfalso
        have : q ∈ (findContactsByEmailOrPhone s e p).filter
            (fun d => d.linkPrecedence == LinkPrecedence.primary) := by
          rw [← findExistingContacts_contacts] at hf ⊢
          exact List.mem_filter.mpr ⟨hq, by simp [hqp]⟩
        rw [hf] at this
        cases this
    | cons a t => exact ⟨oldestOf a t, rfl⟩
  rcases hsome with ⟨pc, hpc⟩
  obtain ⟨hm, hpcp, -⟩ := findExistingContacts_primary_some s e p pc hpc
  have hpcs : pc ∈ s.contacts ∧ pc.deletedAt = none := by
    rw [findExistingContacts_contacts] at hm
    unfold findContactsByEmailOrPhone at hm
    have hcond : (e == none && p == none) = false := by
      rcases hne with h | h
      · simp [Option.isSome_iff_ne_none, h]
      · simp [Option.isSome_iff_ne_none, h]
    rw [hcond] at hm
    simp only [Bool.false_eq_true, if_false] at hm
    rw [mem_sortWith] at hm
    have := List.mem_filter.mp hm
    refine ⟨this.1, ?_⟩
    have hmd := this.2
    unfold matchesEmailOrPhone at hmd
    simp only [Bool.and_eq_true, beq_iff_eq] at hmd
    exact hmd.1
  obtain ⟨cc, hcc⟩ :=
    consolidateContactInfo_isSome s pc hpcs.1 hpcs.2 hpcp hnodup
  refine ⟨cc, ?_⟩
  rw [hB]
  unfold handleExactDuplicate
  rw [hpc]
  simp only [consolidateAndReturn, hcc]

/-- C6 witness: the amended idempotence theorem at the store holding the
single chain Primary1("a","1") and request ("a","1"). -/
theorem C6_idempotent_when_pair_present_witness :
    (⟨1, some "a", some "1", none, .primary, 1, none⟩ : Contact) ∈
      twoPrimariesStore.contacts ∧
    ((identifyContact twoPrimariesStore (some "a") (some "1")).2 = twoPrimariesStore ∧
      identifyContact ((identifyContact twoPrimariesStore (some "a") (some "1")).2)
          (some "a") (some "1") =
        identifyContact twoPrimariesStore (some "a") (some "1") ∧
      ((∃ q ∈ (findExistingContacts twoPrimariesStore (some "a") (some "1")).contacts,
          q.linkPrecedence = LinkPrecedence.primary) →
        ∃ cc, (identifyContact twoPrimariesStore (some "a") (some "1")).1 = Except.ok cc)) :=
  ⟨by decide,
    C6_idempotent_when_pair_present twoPrimariesStore (some "a") (some "1")
      ⟨1, some "a", some "1", none, .primary, 1, none⟩
      (by decide) (by decide) (by decide) (by decide) (by decide) (by decide)⟩

theorem sortWith_sorted_byCreatedAt (l : List Contact) :
    List.Sorted (fun a b => byCreatedAt a b = true) (sortWith byCreatedAt l) :=
  List.sorted_insertionSort _ l

/-- Reflection of the whole-chain "needs a new secondary" rule: it holds iff
the exact pair is absent from the chain, at least one provided field value is
new to the chain, and at least one provided field value already appears in
the chain. -/
theorem checkIfNeedsNewSecondary_iff (s : Store) (pid : Nat) (e p : Option String) :
    checkIfNeedsNewSecondary s pid e p = true ↔
      ((∀ c ∈ getLinkedContactChain s pid, ¬(c.email = e ∧ c.phoneNumber = p)) ∧
       ((e ≠ none ∧ ∀ c ∈ getLinkedContactChain s pid, c.email ≠ e) ∨
        (p ≠ none ∧ ∀ c ∈ getLinkedContactChain s pid, c.phoneNumber ≠ p)) ∧
       ((e ≠ none ∧ ∃ c ∈ getLinkedContactChain s pid, c.email = e) ∨
        (p ≠ none ∧ ∃ c ∈ getLinkedContactChain s pid, c.phoneNumber = p))) := by
  simp only [checkIfNeedsNewSecondary]
  split
  next hex =>
    simp only [List.any_eq_true, Bool.and_eq_true, beq_iff_eq] at hex
    constructor
    · intro h; cases h
    · rintro ⟨habs, -, -⟩
      exfalso
      rcases hex with ⟨c, hc, h1, h2⟩
      exact habs c hc ⟨h1, h2⟩
  next hex =>
    simp only [List.any_eq_true, Bool.and_eq_true, beq_iff_eq, not_exists, not_and] at hex
    simp only [Bool.and_eq_true, Bool.or_eq_true, Bool.not_eq_true', List.any_eq_false,
      List.any_eq_true, Option.isSome_iff_ne_none, beq_iff_eq, Bool.and_eq_true]
    constructor
    · rintro ⟨hnew, hmatch⟩
      refine ⟨fun c hc hcp => hex c hc hcp.1 hcp.2, ?_, ?_⟩
      · rcases hnew with ⟨hne, hno⟩ | ⟨hpe, hno⟩
        · exact Or.inl ⟨hne, fun c hc => hno c hc⟩
        · exact Or.inr ⟨hpe, fun c hc => hno c hc⟩
      · rcases hmatch with ⟨hne, c, hc, hce⟩ | ⟨hpe, c, hc, hcp⟩
        · exact Or.inl ⟨hne, c, hc, hce⟩
        · exact Or.inr ⟨hpe, c, hc, hcp⟩
    · rintro ⟨-, hnew, hmatch⟩
      constructor
      · rcases hnew with ⟨hne, hno⟩ | ⟨hpe, hno⟩
        · exact Or.inl ⟨hne, fun c hc => hno c hc⟩
        · exact Or.inr ⟨hpe, fun c hc => hno c hc⟩
      · rcases hmatch with ⟨hne, c, hc, hce⟩ | ⟨hpe, c, hc, hcp⟩
        · exact Or.inl ⟨hne, c, hc, hce⟩
        · exact Or.inr ⟨hpe, c, hc, hcp⟩

/-- C4 (amended): in branch D, after all chain merges, the new Secondary
holding exactly the requested pair is appended if and only if the exact pair
is absent from the merged chain AND at least one requested field value does
not yet occur in the merged chain AND at least one requested field value
already occurs in it; the surviving primary is a minimal-`createdAt` primary
candidate. -/
theorem C4_branchD_append_iff (s : Store) (contacts : List Contact)
    (e p : Option String) (older : Contact) (rest : List Contact)
    (hsort : sortWith byCreatedAt (contacts.filter
      (fun c => c.linkPrecedence == LinkPrecedence.primary)) = older :: rest) :
    older.linkPrecedence = LinkPrecedence.primary ∧
    older ∈ contacts ∧
    (∀ q ∈ contacts, q.linkPrecedence = LinkPrecedence.primary →
      older.createdAt ≤ q.createdAt) ∧
    (checkIfNeedsNewSecondary (mergeAllChains s older.id rest) older.id e p = true ↔
      ((∀ c ∈ getLinkedContactChain (mergeAllChains s older.id rest) older.id,
          ¬(c.email = e ∧ c.phoneNumber = p)) ∧
       ((e ≠ none ∧ ∀ c ∈ getLinkedContactChain (mergeAllChains s older.id rest) older.id,
          c.email ≠ e) ∨
        (p ≠ none ∧ ∀ c ∈ getLinkedContactChain (mergeAllChains s older.id rest) older.id,
          c.phoneNumber ≠ p)) ∧
       ((e ≠ none ∧ ∃ c ∈ getLinkedContactChain (mergeAllChains s older.id rest) older.id,
          c.email = e) ∨
        (p ≠ none ∧ ∃ c ∈ getLinkedContactChain (mergeAllChains s older.id rest) older.id,
          c.phoneNumber = p)))) ∧
    (checkIfNeedsNewSecondary (mergeAllChains s older.id rest) older.id e p = true →
      (handleMultiplePrimaryContacts s contacts e p).2.contacts =
        (mergeAllChains s older.id rest).contacts ++
          [⟨(mergeAllChains s older.id rest).nextId, e, p, some older.id,
            .secondary, (mergeAllChains s older.id rest).nextId, none⟩]) ∧
    (checkIfNeedsNewSecondary (mergeAllChains s older.id rest) older.id e p = false →
      (handleMultiplePrimaryContacts s contacts e p).2 = mergeAllChains s older.id rest) := by
  have holdmem : older ∈ older :: rest := List.mem_cons_self _ _
  have holdf : older ∈ contacts.filter
      (fun c => c.linkPrecedence == LinkPrecedence.primary) := by
    rw [← hsort] at holdmem
    exact mem_sortWith.mp holdmem
  have holdprops := List.mem_filter.mp holdf
  have hsorted : List.Sorted (fun a b => byCreatedAt a b = true) (older :: rest) := by
    rw [← hsort]
    exact sortWith_sorted_byCreatedAt _
  have hmin : ∀ q ∈ contacts, q.linkPrecedence = LinkPrecedence.primary →
      older.createdAt ≤ q.createdAt := by
    intro q hq hqp
    have hqf : q ∈ older :: rest := by
      rw [← hsort, mem_sortWith]
      exact List.mem_filter.mpr ⟨hq, by simp [hqp]⟩
    rcases List.mem_cons.mp hqf with h | h
    · rw [h]
    · have := (List.sorted_cons.mp hsorted).1 q h
      simpa [byCreatedAt] using this
  refine ⟨by simpa using holdprops.2, holdprops.1, hmin, checkIfNeedsNewSecondary_iff _ _ _ _, ?_, ?_⟩
  · intro hcheck
    simp only [handleMultiplePrimaryContacts, hsort, hcheck, if_true]
    rw [consolidateAndReturn_snd]
    rfl
  · intro hcheck
    simp only [handleMultiplePrimaryContacts, hsort, hcheck, Bool.false_eq_true, if_false]
    rw [consolidateAndReturn_snd]

/-- C4 witness: the amended branch-D theorem at the concrete store
Primary1("a","1"), Primary2("b","2"), Secondary3("c","2") under Primary2
with request ("a","2"): both requested values already occur in the merged
chain, so no row is appended. -/
theorem C4_branchD_append_iff_witness :
    sortWith byCreatedAt (mergeScenarioStore.contacts.filter
        (fun c => c.linkPrecedence == LinkPrecedence.primary)) =
      (⟨1, some "a", some "1", none, .primary, 1, none⟩ : Contact) ::
        [⟨2, some "b", some "2", none, .primary, 2, none⟩] ∧
    (checkIfNeedsNewSecondary
        (mergeAllChains mergeScenarioStore 1 [⟨2, some "b", some "2", none, .primary, 2, none⟩])
        1 (some "a") (some "2") = false →
      (handleMultiplePrimaryContacts mergeScenarioStore mergeScenarioStore.contacts
          (some "a") (some "2")).2 =
        mergeAllChains mergeScenarioStore 1
          [⟨2, some "b", some "2", none, .primary, 2, none⟩]) := by
  refine ⟨by decide, ?_⟩
  have h := C4_branchD_append_iff mergeScenarioStore mergeScenarioStore.contacts
    (some "a") (some "2") ⟨1, some "a", some "1", none, .primary, 1, none⟩
    [⟨2, some "b", some "2", none, .primary, 2, none⟩] (by decide)
  exact h.2.2.2.2.2

/-- C9 witness: the frame theorem applied to the concrete merge scenario
(older primary 1, newer primary 2 owning secondary 3). -/
theorem C9_merge_touches_only_newer_chain_witness :
    (⟨1, some "a", some "1", none, .primary, 1, none⟩ : Contact) ∈
      mergeScenarioStore.contacts ∧
    (mergeContactChains mergeScenarioStore 1 2).1.nextId = mergeScenarioStore.nextId ∧
    (mergeContactChains mergeScenarioStore 1 2).1.contacts.filter
        (fun c => !(((getAllLinkedContacts mergeScenarioStore 2).map (fun d => d.id)).contains c.id)) =
      mergeScenarioStore.contacts.filter
        (fun c => !(((getAllLinkedContacts mergeScenarioStore 2).map (fun d => d.id)).contains c.id)) ∧
    (⟨1, some "a", some "1", none, .primary, 1, none⟩ : Contact) ∈
      (mergeContactChains mergeScenarioStore 1 2).1.contacts ∧
    ∀ c ∈ mergeScenarioStore.contacts, c.linkedId = some 1 →
      c ∈ (mergeContactChains mergeScenarioStore 1 2).1.contacts := by
  refine ⟨by decide, ?_⟩
  exact C9_merge_touches_only_newer_chain mergeScenarioStore
    ⟨1, some "a", some "1", none, .primary, 1, none⟩
    ⟨2, some "b", some "2", none, .primary, 2, none⟩
    (by decide) (by decide) (by decide) (by decide) (by decide) (by decide)
    (by decide) (by decide) (by decide)

/-! ## Deduplication and ordering lemmas for consolidation -/

theorem firstOccurrences_nil : firstOccurrences [] = [] := by
  rw [firstOccurrences.eq_def]

theorem firstOccurrences_cons (v : String) (rest : List String) :
    firstOccurrences (v :: rest) =
      v :: firstOccurrences (rest.filter (fun w => !(w == v))) := by
  rw [firstOccurrences.eq_def]

theorem setAdd_mem (acc : List String) (x v : String) :
    v ∈ setAdd acc x ↔ v ∈ acc ∨ v = x := by
  unfold setAdd
  by_cases hx : x ∈ acc
  · rw [if_pos hx]
    constructor
    · exact fun h => Or.inl h
    · rintro (h | h)
      · exact h
      · rw [h]; exact hx
  · rw [if_neg hx]
    simp

theorem setInsertAll_mem (xs : List String) :
    ∀ (acc : List String) (v : String), v ∈ setInsertAll acc xs ↔ v ∈ acc ∨ v ∈ xs := by
  induction xs with
  | nil => intro acc v; simp [setInsertAll]
  | cons x rest ih =>
      intro acc v
      show v ∈ setInsertAll (setAdd acc x) rest ↔ _
      rw [ih (setAdd acc x) v, setAdd_mem]
      simp only [List.mem_cons]
      tauto

theorem setInsertAll_nodup (xs : List String) :
    ∀ acc : List String, acc.Nodup → (setInsertAll acc xs).Nodup := by
  induction xs with
  | nil => intro acc h; exact h
  | cons x rest ih =>
      intro acc h
      show (setInsertAll (setAdd acc x) rest).Nodup
      refine ih _ ?_
      unfold setAdd
      by_cases hx : x ∈ acc
      · rw [if_pos hx]; exact h
      · rw [if_neg hx]
        simpa [List.nodup_append] using ⟨h, hx⟩

theorem firstOccurrences_eq_setInsertAll (xs : List String) :
    ∀ acc : List String,
      setInsertAll acc xs =
        acc ++ firstOccurrences (xs.filter (fun v => !(decide (v ∈ acc)))) := by
  induction xs with
  | nil => intro acc; simp [setInsertAll, firstOccurrences_nil]
  | cons x rest ih =>
      intro acc
      show setInsertAll (setAdd acc x) rest = _
      by_cases hx : x ∈ acc
      · have hc : (!(decide (x ∈ acc))) = false := by simpa using hx
        rw [List.filter_cons, hc]
        simp only [Bool.false_eq_true, if_false]
        have hadd : setAdd acc x = acc := by unfold setAdd; rw [if_pos hx]
        rw [hadd, ih acc]
      · have hc : (!(decide (x ∈ acc))) = true := by simpa using hx
        rw [List.filter_cons, hc]
        simp only [eq_self_iff_true, if_true]
        have hadd : setAdd acc x = acc ++ [x] := by unfold setAdd; rw [if_neg hx]
        rw [hadd, ih (acc ++ [x]), firstOccurrences_cons, List.append_assoc,
          List.singleton_append]
        have hfilters : rest.filter (fun v => !(decide (v ∈ acc ++ [x]))) =
            (rest.filter (fun v => !(decide (v ∈ acc)))).filter (fun w => !(w == x)) := by
          rw [List.filter_filter]
          apply List.filter_congr
          intro w _
          have h1 : (w == x) = decide (w = x) := by by_cases h : w = x <;> simp [h]
          by_cases h2 : w ∈ acc <;> by_cases h3 : w = x <;> simp [h1, h2, h3]
        rw [hfilters]

theorem setInsertAll_eq_firstOccurrences (xs : List String) :
    setInsertAll [] xs = firstOccurrences xs := by
  have h := firstOccurrences_eq_setInsertAll xs []
  simpa using h

theorem firstOccurrences_length_aux (n : Nat) :
    ∀ xs : List String, xs.length ≤ n →
      ((firstOccurrences xs).Nodup ∧ ∀ v, v ∈ firstOccurrences xs ↔ v ∈ xs) := by
  induction n with
  | zero =>
      intro xs hlen
      have : xs = [] := List.length_eq_zero.mp (Nat.le_zero.mp hlen)
      subst this
      simp [firstOccurrences_nil]
  | succ n ih =>
      intro xs hlen
      cases xs with
      | nil => simp [firstOccurrences_nil]
      | cons v rest =>
          rw [firstOccurrences_cons]
          have hlen' : (rest.filter (fun w => !(w == v))).length ≤ n := by
            have h1 := List.length_filter_le (fun w => !(w == v)) rest
            have h2 : rest.length ≤ n := by simpa using Nat.le_of_succ_le_succ hlen
            omega
          obtain ⟨hnd, hmem⟩ := ih _ hlen'
          constructor
          · refine List.nodup_cons.mpr ⟨?_, hnd⟩
            intro hv
            have := (hmem v).mp hv
            have := List.of_mem_filter this
            simp at this
          · intro w
            simp only [List.mem_cons, hmem w]
            constructor
            · rintro (h | h)
              · exact Or.inl h
              · exact Or.inr (List.mem_of_mem_filter h)
            · rintro (h | h)
              · exact Or.inl h
              · by_cases hwv : w = v
                · exact Or.inl hwv
                · refine Or.inr (List.mem_filter.mpr ⟨h, ?_⟩)
                  simpa using hwv

theorem firstOccurrences_nodup (xs : List String) : (firstOccurrences xs).Nodup :=
  (firstOccurrences_length_aux xs.length xs (Nat.le_refl _)).1

theorem firstOccurrences_mem (xs : List String) (v : String) :
    v ∈ firstOccurrences xs ↔ v ∈ xs :=
  (firstOccurrences_length_aux xs.length xs (Nat.le_refl _)).2 v

/-- In a list sorted for `r`, the hit of `find?` relates to every other
matching member. -/
theorem sorted_find?_min {α : Type} (r : α → α → Prop) :
    ∀ {l : List α}, List.Pairwise r l → ∀ {p : α → Bool} {a : α},
      l.find? p = some a → ∀ b ∈ l, p b = true → a = b ∨ r a b := by
  intro l hl
  induction l with
  | nil => intro p a hfind; cases hfind
  | cons x l ih =>
      intro p a hfind b hb hpb
      rcases List.pairwise_cons.mp hl with ⟨hx, hl'⟩
      cases hp : p x with
      | true =>
          rw [List.find?_cons_of_pos _ hp] at hfind
          have hax : a = x := (Option.some.inj hfind).symm
          rcases List.mem_cons.mp hb with h | h
          · exact Or.inl (hax.trans h.symm)
          · exact Or.inr (hax ▸ hx b h)
      | false =>
          rw [List.find?_cons_of_neg _ (by simp [hp])] at hfind
          rcases List.mem_cons.mp hb with h | h
          · rw [h] at hpb; rw [hpb] at hp; cases hp
          · exact ih hl' hfind b h hpb

theorem find?_filter_of_imp {α : Type} (p q : α → Bool)
    (h : ∀ a, p a = true → q a = true) :
    ∀ l : List α, (l.filter q).find? p = l.find? p := by
  intro l
  induction l with
  | nil => rfl
  | cons a l ih =>
      rw [List.filter_cons]
      cases hq : q a with
      | true =>
          simp only [eq_self_iff_true, if_true]
          cases hp : p a with
          | true =>
              rw [List.find?_cons_of_pos _ hp, List.find?_cons_of_pos _ hp]
          | false =>
              rw [List.find?_cons_of_neg _ (by simp [hp]),
                List.find?_cons_of_neg _ (by simp [hp])]
              exact ih
      | false =>
          simp only [Bool.false_eq_true, if_false]
          have hp : p a = false := by
            cases hpa : p a with
            | false => rfl
            | true => rw [h a hpa] at hq; cases hq
          rw [List.find?_cons_of_neg _ (by simp [hp])]
          exact ih

theorem find?_filterMap_keyed (f : Contact → Option String) (g : Contact → Nat)
    (w : String) :
    ∀ secs : List Contact,
      ((secs.filterMap (fun c => (f c).map (fun v => (g c, v)))).find?
        (fun it => it.2 == w)) =
      (secs.find? (fun c => f c == some w)).map (fun c => (g c, w)) := by
  intro secs
  induction secs with
  | nil => rfl
  | cons c rest ih =>
      rw [List.filterMap_cons]
      cases hf : f c with
      | none =>
          simp only [Option.map_none']
          have hpred : (f c == some w) = false := by rw [hf]; rfl
          rw [List.find?_cons_of_neg _ (by simp [hpred])]
          exact ih
      | some v =>
          simp only [Option.map_some']
          cases hvw : (v == w) with
          | true =>
              have hv : v = w := by simpa using hvw
              rw [List.find?_cons_of_pos _ (by simpa using hvw)]
              have hpred : (f c == some w) = true := by
                rw [hf, hv]; exact beq_self_eq_true _
              have hstep : List.find? (fun d => f d == some w) (c :: rest) = some c := by
                apply List.find?_cons_of_pos
                exact hpred
              rw [hstep, Option.map_some', hv]
          | false =>
              rw [List.find?_cons_of_neg _ (by simpa using hvw)]
              have hpred : (f c == some w) = false := by
                rw [hf]
                simpa using hvw
              rw [List.find?_cons_of_neg _ (by simp [hpred])]
              exact ih

theorem map_snd_filterMap (f : Contact → Option String) (g : Contact → Nat) :
    ∀ secs : List Contact,
      (secs.filterMap (fun c => (f c).map (fun v => (g c, v)))).map Prod.snd =
        secs.filterMap f := by
  intro secs
  induction secs with
  | nil => rfl
  | cons c rest ih =>
      rw [List.filterMap_cons, List.filterMap_cons]
      cases hf : f c with
      | none => simpa using ih
      | some v => simpa using ih

theorem pairwise_fst_filterMap (f : Contact → Option String) (g : Contact → Nat)
    (hg : ∀ a b : Contact, a.createdAt ≤ b.createdAt → g a ≤ g b) :
    ∀ secs : List Contact,
      List.Pairwise (fun a b => a.createdAt ≤ b.createdAt) secs →
      List.Pairwise (fun x y : Nat × String => x.1 ≤ y.1)
        (secs.filterMap (fun c => (f c).map (fun v => (g c, v)))) := by
  intro secs h
  induction secs with
  | nil => exact List.Pairwise.nil
  | cons c rest ih =>
      rcases List.pairwise_cons.mp h with ⟨hc, hrest⟩
      rw [List.filterMap_cons]
      cases hf : f c with
      | none => exact ih hrest
      | some v =>
          refine List.pairwise_cons.mpr ⟨?_, ih hrest⟩
          intro y hy
          rcases List.mem_filterMap.mp hy with ⟨d, hd, hdy⟩
          cases hfd : f d with
          | none => rw [hfd] at hdy; cases hdy
          | some u =>
              rw [hfd, Option.map_some'] at hdy
              have hy' : (g d, u) = y := Option.some.inj hdy
              rw [← hy']
              exact hg c d (hc d hd)

/-- Keep-first deduplication of the value column of a key-sorted item list is
ordered by any rank function matching the keys from below on every item and
from above on first occurrences. -/
theorem firstOccurrences_pairwise_keyed :
    ∀ (n : Nat) (items : List (Nat × String)) (key : String → Nat),
      items.length ≤ n →
      List.Pairwise (fun a b : Nat × String => a.1 ≤ b.1) items →
      (∀ it ∈ items, key it.2 ≤ it.1) →
      (∀ (w : String) (it' : Nat × String),
        items.find? (fun it => it.2 == w) = some it' → it'.1 ≤ key w) →
      List.Pairwise (fun v w => key v ≤ key w)
        (firstOccurrences (items.map Prod.snd)) := by
  intro n
  induction n with
  | zero =>
      intro items key hlen _ _ _
      have : items = [] := List.length_eq_zero.mp (Nat.le_zero.mp hlen)
      subst this
      simp [firstOccurrences_nil]
  | succ n ih =>
      intro items key hlen hsorted hK1 hK2
      cases items with
      | nil => simp [firstOccurrences_nil]
      | cons it rest =>
          rcases List.pairwise_cons.mp hsorted with ⟨hhead, hrest⟩
          rw [List.map_cons, firstOccurrences_cons]
          have hfm : (rest.map Prod.snd).filter (fun w => !(w == it.2)) =
              (rest.filter (fun r => !(r.2 == it.2))).map Prod.snd := by
            rw [List.filter_map]
            rfl
          rw [hfm]
          refine List.pairwise_cons.mpr ⟨?_, ?_⟩
          · -- head: key it.2 precedes every later first-occurring value
            intro w hw
            have hwmem : w ∈ (rest.filter (fun r => !(r.2 == it.2))).map Prod.snd :=
              (firstOccurrences_mem _ w).mp hw
            rcases List.mem_map.mp hwmem with ⟨r, hr, hrw⟩
            have hrrest : r ∈ rest := List.mem_of_mem_filter hr
            have hwne : w ≠ it.2 := by
              have := List.of_mem_filter hr
              rw [hrw] at this
              simpa using this
            have hfind : ∃ it'', rest.find? (fun x => x.2 == w) = some it'' := by
              cases hf : rest.find? (fun x => x.2 == w) with
              | none =>
                  exfalso
                  have := List.find?_eq_none.mp hf r hrrest
                  rw [hrw] at this
                  simp at this
              | some it'' => exact ⟨it'', rfl⟩
            rcases hfind with ⟨it'', hfind⟩
            have hmem'' : it'' ∈ rest := List.mem_of_find?_eq_some hfind
            have hfull : (it :: rest).find? (fun x => x.2 == w) = some it'' := by
              rw [List.find?_cons_of_neg _ (by simpa using fun h => hwne h.symm)]
              exact hfind
            have h1 : key it.2 ≤ it.1 := hK1 it (List.mem_cons_self _ _)
            have h2 : it.1 ≤ it''.1 := hhead it'' hmem''
            have h3 : it''.1 ≤ key w := hK2 w it'' hfull
            omega
          · -- tail: induction on the filtered remainder
            refine ih (rest.filter (fun r => !(r.2 == it.2))) key ?_ ?_ ?_ ?_
            · have h1 := List.length_filter_le (fun r : Nat × String => !(r.2 == it.2)) rest
              have h2 : rest.length ≤ n := by simpa using Nat.le_of_succ_le_succ hlen
              omega
            · exact List.Pairwise.sublist (List.filter_sublist _) hrest
            · intro x hx
              exact hK1 x (List.mem_cons_of_mem _ (List.mem_of_mem_filter hx))
            · intro w it' hfind
              have hit' : it' ∈ rest.filter (fun r => !(r.2 == it.2)) :=
                List.mem_of_find?_eq_some hfind
              have hit'w : it'.2 = w := by simpa using List.find?_some hfind
              have hwne : w ≠ it.2 := by
                have := List.of_mem_filter hit'
                rw [hit'w] at this
                simpa using this
              have heq : (rest.filter (fun r => !(r.2 == it.2))).find?
                  (fun x => x.2 == w) = rest.find? (fun x => x.2 == w) := by
                apply find?_filter_of_imp
                intro a ha
                have : a.2 = w := by simpa using ha
                rw [this]
                simpa using hwne
              refine hK2 w it' ?_
              rw [List.find?_cons_of_neg _ (by simpa using fun h => hwne h.symm)]
              rw [← heq]
              exact hfind

theorem sortWith_sorted_byPrecedence (l : List Contact) :
    List.Pairwise (fun a b => byPrecedenceThenCreatedAt a b = true)
      (sortWith byPrecedenceThenCreatedAt l) :=
  List.sorted_insertionSort _ l

theorem getAllLinkedContacts_sorted (s : Store) (i : Nat) :
    List.Pairwise (fun a b => byPrecedenceThenCreatedAt a b = true)
      (getAllLinkedContacts s i) := by
  simp only [getAllLinkedContacts]
  cases hfind : s.contacts.find? (fun c => c.id == i && c.deletedAt == none) with
  | none => exact List.Pairwise.nil
  | some contact =>
      dsimp only
      cases hpid : (if contact.linkPrecedence == LinkPrecedence.primary then
          some contact.id else contact.linkedId) with
      | none => simp
      | some pid =>
          cases pid with
          | zero => simp
          | succ n => exact sortWith_sorted_byPrecedence _

/-- Deduplicated field collection of a consolidated chain: no duplicates,
membership is exactly the chain's values, and the insertion order follows the
first-introduction rank (`introKey`). -/
theorem consolidate_field_spec (pc : Contact) (secs : List Contact)
    (f : Contact → Option String)
    (hsecs : List.Pairwise (fun a b => a.createdAt ≤ b.createdAt) secs) :
    (setInsertAll [] ((f pc).toList ++ secs.filterMap f)).Nodup ∧
    (∀ v, v ∈ setInsertAll [] ((f pc).toList ++ secs.filterMap f) ↔
      f pc = some v ∨ ∃ c ∈ secs, f c = some v) ∧
    (setInsertAll [] ((f pc).toList ++ secs.filterMap f)).Pairwise
      (fun v w => introKey f pc secs v ≤ introKey f pc secs w) := by
  refine ⟨setInsertAll_nodup _ [] List.nodup_nil, ?_, ?_⟩
  · intro v
    rw [setInsertAll_mem]
    simp only [List.not_mem_nil, false_or, List.mem_append, List.mem_filterMap]
    constructor
    · rintro (h | ⟨c, hc, hcv⟩)
      · left
        cases hf : f pc with
        | none => rw [hf] at h; cases h
        | some u =>
            rw [hf] at h
            simp only [Option.toList_some, List.mem_singleton] at h
            rw [h]
      · exact Or.inr ⟨c, hc, hcv⟩
    · rintro (h | ⟨c, hc, hcv⟩)
      · left
        rw [h]
        simp
      · exact Or.inr ⟨c, hc, hcv⟩
  · rw [setInsertAll_eq_firstOccurrences]
    have hvals : (((f pc).toList.map (fun v => ((0 : Nat), v))) ++
        secs.filterMap (fun c => (f c).map (fun v => (c.createdAt + 1, v)))).map
          Prod.snd = (f pc).toList ++ secs.filterMap f := by
      rw [List.map_append, map_snd_filterMap, List.map_map]
      congr 1
      exact List.map_id _
    rw [← hvals]
    apply firstOccurrences_pairwise_keyed
      (((f pc).toList.map (fun v => ((0 : Nat), v))) ++
        secs.filterMap (fun c => (f c).map (fun v => (c.createdAt + 1, v)))).length
      _ _ (Nat.le_refl _)
    · -- key-sorted items
      rw [List.pairwise_append]
      refine ⟨?_, ?_, ?_⟩
      · cases hf : f pc with
        | none => simp
        | some u => simp
      · exact pairwise_fst_filterMap f (fun c => c.createdAt + 1)
          (fun a b h => Nat.add_le_add_right h 1) secs hsecs
      · intro x hx y hy
        rcases List.mem_map.mp hx with ⟨v, _, hv⟩
        rw [← hv]
        exact Nat.zero_le _
    · -- the rank lower-bounds every item's key
      intro it hit
      rcases List.mem_append.mp hit with h | h
      · rcases List.mem_map.mp h with ⟨v, hv, hvit⟩
        have hfpc : f pc = some v := by
          cases hf : f pc with
          | none => rw [hf] at hv; cases hv
          | some u =>
              rw [hf] at hv
              simp only [Option.toList_some, List.mem_singleton] at hv
              rw [hv]
        rw [← hvit]
        unfold introKey
        rw [if_pos (by simp [hfpc])]
      · rcases List.mem_filterMap.mp h with ⟨c, hc, hcit⟩
        cases hfc : f c with
        | none => rw [hfc] at hcit; cases hcit
        | some v =>
            rw [hfc, Option.map_some'] at hcit
            have hit2 : it = (c.createdAt + 1, v) := (Option.some.inj hcit).symm
            rw [hit2]
            unfold introKey
            by_cases hpc : (f pc == some v) = true
            · rw [if_pos hpc]
              exact Nat.zero_le _
            · rw [if_neg hpc]
              have hfind : ∃ c₀, secs.find? (fun d => f d == some v) = some c₀ := by
                cases hfd : secs.find? (fun d => f d == some v) with
                | none =>
                    exfalso
                    have := List.find?_eq_none.mp hfd c hc
                    rw [hfc] at this
                    simp at this
                | some c₀ => exact ⟨c₀, rfl⟩
              rcases hfind with ⟨c₀, hfd⟩
              have hc₀ := sorted_find?_min (fun a b : Contact => a.createdAt ≤ b.createdAt)
                hsecs hfd c hc (by simp [hfc])
              have hle : c₀.createdAt ≤ c.createdAt := by
                rcases hc₀ with h | h
                · rw [h]
                · exact h
              rw [hfd]
              dsimp only
              omega
    · -- first occurrences upper-bound the rank
      intro w it' hfind
      cases hf : f pc with
      | none =>
          have hfirst : ((f pc).toList.map (fun v => ((0 : Nat), v))) = [] := by
            rw [hf]; rfl
          rw [hfirst, List.nil_append, find?_filterMap_keyed] at hfind
          cases hfd : secs.find? (fun d => f d == some w) with
          | none => rw [hfd] at hfind; cases hfind
          | some c₀ =>
              rw [hfd, Option.map_some'] at hfind
              have hit' : it' = (c₀.createdAt + 1, w) := (Option.some.inj hfind).symm
              rw [hit']
              unfold introKey
              rw [if_neg (by simp [hf]), hfd]
      | some v₀ =>
          have hfirst : ((f pc).toList.map (fun v => ((0 : Nat), v))) = [((0 : Nat), v₀)] := by
            rw [hf]; rfl
          rw [hfirst, List.singleton_append] at hfind
          by_cases hvw : (v₀ == w) = true
          · have hstep : (((0 : Nat), v₀) ::
                secs.filterMap (fun c => (f c).map (fun v => (c.createdAt + 1, v)))).find?
                  (fun it => it.2 == w) = some ((0 : Nat), v₀) := by
              apply List.find?_cons_of_pos
              simpa using hvw
            rw [hstep] at hfind
            have hit' : it' = ((0 : Nat), v₀) := (Option.some.inj hfind).symm
            rw [hit']
            exact Nat.zero_le _
          · have hstep : (((0 : Nat), v₀) ::
                secs.filterMap (fun c => (f c).map (fun v => (c.createdAt + 1, v)))).find?
                  (fun it => it.2 == w) =
                (secs.filterMap (fun c => (f c).map (fun v => (c.createdAt + 1, v)))).find?
                  (fun it => it.2 == w) := by
              apply List.find?_cons_of_neg
              simpa using hvw
            rw [hstep, find?_filterMap_keyed] at hfind
            cases hfd : secs.find? (fun d => f d == some w) with
            | none => rw [hfd] at hfind; cases hfind
            | some c₀ =>
                rw [hfd, Option.map_some'] at hfind
                have hit' : it' = (c₀.createdAt + 1, w) := (Option.some.inj hfind).symm
                rw [hit']
                unfold introKey
                have hne : (f pc == some w) ≠ true := by
                  rw [hf]
                  simpa using hvw
                rw [if_neg hne, hfd]

/-- Full characterisation of a successful consolidation: the returned record
is built from the first primary of the chain query (a minimal-`createdAt`
primary), the `createdAt`-sorted secondaries, and the insertion-ordered
deduplicated attribute values. -/
theorem consolidateContactInfo_spec (s : Store) (pid : Nat) (cc : ConsolidatedContact)
    (h : consolidateContactInfo s pid = some cc) :
    ∃ pc secs,
      pc ∈ getAllLinkedContacts s pid ∧
      pc.linkPrecedence = LinkPrecedence.primary ∧
      (∀ q ∈ getAllLinkedContacts s pid, q.linkPrecedence = LinkPrecedence.primary →
        pc.createdAt ≤ q.createdAt) ∧
      cc.primaryContactId = pc.id ∧
      secs.Perm ((getAllLinkedContacts s pid).filter
        (fun c => c.linkPrecedence == LinkPrecedence.secondary)) ∧
      List.Pairwise (fun a b : Contact => a.createdAt ≤ b.createdAt) secs ∧
      cc.secondaryContactIds = secs.map (fun c => c.id) ∧
      cc.emails.Nodup ∧
      (∀ v, v ∈ cc.emails ↔ pc.email = some v ∨ ∃ c ∈ secs, c.email = some v) ∧
      cc.emails.Pairwise (fun v w =>
        introKey (fun c => c.email) pc secs v ≤ introKey (fun c => c.email) pc secs w) ∧
      cc.phoneNumbers.Nodup ∧
      (∀ v, v ∈ cc.phoneNumbers ↔
        pc.phoneNumber = some v ∨ ∃ c ∈ secs, c.phoneNumber = some v) ∧
      cc.phoneNumbers.Pairwise (fun v w =>
        introKey (fun c => c.phoneNumber) pc secs v ≤
          introKey (fun c => c.phoneNumber) pc secs w) := by
  simp only [consolidateContactInfo] at h
  cases hfp : (getAllLinkedContacts s pid).find?
      (fun c => c.linkPrecedence == LinkPrecedence.primary) with
  | none => rw [hfp] at h; cases h
  | some pc =>
      rw [hfp] at h
      dsimp only at h
      have hcc := Option.some.inj h
      have hpcp : pc.linkPrecedence = LinkPrecedence.primary := by
        simpa using List.find?_some hfp
      have hsecsP : List.Pairwise (fun a b : Contact => a.createdAt ≤ b.createdAt)
          (sortWith byCreatedAt ((getAllLinkedContacts s pid).filter
            (fun c => c.linkPrecedence == LinkPrecedence.secondary))) := by
        refine List.Pairwise.imp ?_ (sortWith_sorted_byCreatedAt _)
        intro a b hab
        simpa [byCreatedAt] using hab
      refine ⟨pc, sortWith byCreatedAt ((getAllLinkedContacts s pid).filter
        (fun c => c.linkPrecedence == LinkPrecedence.secondary)),
        List.mem_of_find?_eq_some hfp, hpcp, ?_, ?_, sortWith_perm _ _, hsecsP, ?_, ?_⟩
      · intro q hq hqp
        have := sorted_find?_min (fun a b => byPrecedenceThenCreatedAt a b = true)
          (getAllLinkedContacts_sorted s pid) hfp q hq (by simp [hqp])
        rcases this with h' | h'
        · rw [h']
        · simp only [byPrecedenceThenCreatedAt, precRank, hpcp, hqp, Bool.or_eq_true,
            Bool.and_eq_true, decide_eq_true_eq, beq_iff_eq] at h'
          omega
      · rw [← hcc]
      · rw [← hcc]
      · have he := consolidate_field_spec pc _ (fun c => c.email) hsecsP
        have hp := consolidate_field_spec pc _ (fun c => c.phoneNumber) hsecsP
        have hccE : cc.emails = setInsertAll []
            (pc.email.toList ++ (sortWith byCreatedAt ((getAllLinkedContacts s pid).filter
              (fun c => c.linkPrecedence == LinkPrecedence.secondary))).filterMap
                (fun c => c.email)) := by
          rw [← hcc]
        have hccP : cc.phoneNumbers = setInsertAll []
            (pc.phoneNumber.toList ++ (sortWith byCreatedAt ((getAllLinkedContacts s pid).filter
              (fun c => c.linkPrecedence == LinkPrecedence.secondary))).filterMap
                (fun c => c.phoneNumber)) := by
          rw [← hcc]
        rw [hccE, hccP]
        exact ⟨he.1, he.2.1, he.2.2, hp.1, hp.2.1, hp.2.2⟩

theorem consolidateAndReturn_ok (s : Store) (pid : Nat) (cc : ConsolidatedContact)
    (h : (consolidateAndReturn s pid).1 = .ok cc) :
    consolidateContactInfo s pid = some cc := by
  unfold consolidateAndReturn at h
  cases hc : consolidateContactInfo s pid with
  | some d =>
      rw [hc] at h
      have : d = cc := Except.ok.inj h
      rw [this]
  | none =>
      rw [hc] at h
      cases h

theorem handleExactDuplicate_ok (s : Store) (sr : ContactSearchResult) :
    ∃ pid, ∀ cc, (handleExactDuplicate s sr).1 = .ok cc →
      consolidateContactInfo (handleExactDuplicate s sr).2 pid = some cc := by
  rw [handleExactDuplicate_snd]
  unfold handleExactDuplicate
  cases sr.primaryContact with
  | some q =>
      exact ⟨q.id, fun cc h => consolidateAndReturn_ok s q.id cc h⟩
  | none =>
      cases sr.contacts.find? (fun c => c.linkPrecedence == LinkPrecedence.primary) with
      | some q => exact ⟨q.id, fun cc h => consolidateAndReturn_ok s q.id cc h⟩
      | none => exact ⟨0, fun cc h => absurd h (by simp)⟩

theorem handleSinglePrimaryContact_ok (s : Store) (sr : ContactSearchResult)
    (e p : Option String) :
    ∃ pid, ∀ cc, (handleSinglePrimaryContact s sr e p).1 = .ok cc →
      consolidateContactInfo (handleSinglePrimaryContact s sr e p).2 pid = some cc := by
  unfold handleSinglePrimaryContact
  cases sr.primaryContact with
  | none => exact ⟨0, fun cc h => absurd h (by simp)⟩
  | some pc =>
      dsimp only
      by_cases hneed : needsSecondaryContact pc e p = true
      · rw [if_pos hneed]
        refine ⟨pc.id, fun cc h => ?_⟩
        rw [consolidateAndReturn_snd]
        exact consolidateAndReturn_ok _ pc.id cc h
      · rw [if_neg hneed]
        refine ⟨pc.id, fun cc h => ?_⟩
        rw [consolidateAndReturn_snd]
        exact consolidateAndReturn_ok _ pc.id cc h

theorem handleMultiplePrimaryContacts_ok (s : Store) (contacts : List Contact)
    (e p : Option String) :
    ∃ pid, ∀ cc, (handleMultiplePrimaryContacts s contacts e p).1 = .ok cc →
      consolidateContactInfo (handleMultiplePrimaryContacts s contacts e p).2 pid =
        some cc := by
  unfold handleMultiplePrimaryContacts
  cases sortWith byCreatedAt (contacts.filter
      (fun c => c.linkPrecedence == LinkPrecedence.primary)) with
  | nil => exact ⟨0, fun cc h => absurd h (by simp)⟩
  | cons older rest =>
      dsimp only
      refine ⟨older.id, fun cc h => ?_⟩
      rw [consolidateAndReturn_snd]
      exact consolidateAndReturn_ok _ older.id cc h

theorem consolidateAndReturn_ok' (st : Store) (pid : Nat) :
    ∃ pid', ∀ cc, (consolidateAndReturn st pid).1 = .ok cc →
      consolidateContactInfo (consolidateAndReturn st pid).2 pid' = some cc :=
  ⟨pid, fun cc h => by
    rw [consolidateAndReturn_snd]
    exact consolidateAndReturn_ok st pid cc h⟩

theorem handleExistingChain_ok (s : Store) (sr : ContactSearchResult)
    (e p : Option String) :
    (∃ pid, ∀ cc, (handleExistingChain s sr e p).1 = .ok cc →
      consolidateContactInfo (handleExistingChain s sr e p).2 pid = some cc) ∨
    handleExistingChain s sr e p = handleNoExistingContacts s e p := by
  unfold handleExistingChain
  dsimp only
  split
  next pc hpc =>
    left
    split
    next hneed =>
      exact consolidateAndReturn_ok' (createSecondaryContact s pc.id e p).2 pc.id
    next hneed =>
      exact consolidateAndReturn_ok' s pc.id
  next =>
    split
    next => right; rfl
    next hd tl =>
      split
      next updated s' hup =>
        left
        exact consolidateAndReturn_ok' s' updated.id
      next hup =>
        right
        rfl

/-- Every successful identify response was either consolidated from the
final store at some chain root, or produced by the fresh-primary branch. -/
theorem identify_ok_cases (s : Store) (e p : Option String) :
    (∃ pid, ∀ cc, (identifyContact s e p).1 = .ok cc →
      consolidateContactInfo (identifyContact s e p).2 pid = some cc) ∨
    identifyContact s e p = handleNoExistingContacts s e p := by
  simp only [identifyContact]
  by_cases h0 : ((findExistingContacts s e p).contacts.length == 0) = true
  · rw [if_pos h0]
    right
    rfl
  · rw [if_neg h0]
    by_cases h1 : isExactDuplicate (findExistingContacts s e p).contacts e p = true
    · rw [if_pos h1]
      left
      exact handleExactDuplicate_ok s _
    · rw [if_neg h1]
      by_cases h2 : ((findExistingContacts s e p).primaryContact.isSome &&
          (findExistingContacts s e p).secondaryContacts.length == 0) = true
      · rw [if_pos h2]
        left
        exact handleSinglePrimaryContact_ok s _ e p
      · rw [if_neg h2]
        by_cases h3 : hasMultiplePrimaryContacts (findExistingContacts s e p).contacts = true
        · rw [if_pos h3]
          left
          exact handleMultiplePrimaryContacts_ok s _ e p
        · rw [if_neg h3]
          exact handleExistingChain_ok s _ e p

/-- In a well-formed store, a freshly created primary forms a one-element
chain. -/
theorem chain_of_fresh_primary (s : Store) (e p : Option String) (hwf : WellFormed s) :
    getAllLinkedContacts (createPrimaryContact s e p).2 s.nextId =
      [(createPrimaryContact s e p).1] := by
  have hnew : (createPrimaryContact s e p).1 =
      ⟨s.nextId, e, p, none, .primary, s.nextId, none⟩ := rfl
  have hsnd : (createPrimaryContact s e p).2 =
      ⟨s.contacts ++ [⟨s.nextId, e, p, none, .primary, s.nextId, none⟩],
        s.nextId + 1⟩ := rfl
  rw [hsnd, hnew]
  simp only [getAllLinkedContacts]
  have hfind : (s.contacts ++
      [(⟨s.nextId, e, p, none, .primary, s.nextId, none⟩ : Contact)]).find?
      (fun c => c.id == s.nextId && c.deletedAt == none) =
      some ⟨s.nextId, e, p, none, .primary, s.nextId, none⟩ := by
    rw [List.find?_append]
    have h1 : s.contacts.find? (fun c => c.id == s.nextId && c.deletedAt == none) = none := by
      rw [List.find?_eq_none]
      intro x hx
      have hid := (hwf x hx).1
      simp only [Bool.and_eq_true, beq_iff_eq, not_and]
      intro hcontr
      omega
    rw [h1]
    have h2 : ([(⟨s.nextId, e, p, none, .primary, s.nextId, none⟩ : Contact)]).find?
        (fun c => c.id == s.nextId && c.deletedAt == none) =
        some ⟨s.nextId, e, p, none, .primary, s.nextId, none⟩ := by
      apply List.find?_cons_of_pos
      simp
    rw [h2]
    rfl
  rw [hfind]
  dsimp only
  simp only [beq_self_eq_true, eq_self_iff_true, if_true]
  cases hn : s.nextId with
  | zero => rfl
  | succ n =>
      have hfilter : (s.contacts ++
          [(⟨n + 1, e, p, none, .primary, n + 1, none⟩ : Contact)]).filter
          (fun c => c.deletedAt == none && (c.id == n + 1 || c.linkedId == some (n + 1))) =
          [⟨n + 1, e, p, none, .primary, n + 1, none⟩] := by
        rw [List.filter_append]
        have h1 : s.contacts.filter
            (fun c => c.deletedAt == none && (c.id == n + 1 || c.linkedId == some (n + 1))) =
            [] := by
          rw [List.filter_eq_nil_iff]
          intro a ha
          have hida := (hwf a ha).1
          have hlida := (hwf a ha).2
          simp only [Bool.and_eq_true, Bool.or_eq_true, beq_iff_eq, not_and, not_or]
          intro _
          constructor
          · intro hcontr
            rw [hn] at hida
            omega
          · intro hcontr
            have := hlida (n + 1) (by rw [hcontr]; simp)
            rw [hn] at this
            omega
        rw [h1, List.nil_append]
        simp
      show sortWith byPrecedenceThenCreatedAt
          ((s.contacts ++
            [(⟨n + 1, e, p, none, .primary, n + 1, none⟩ : Contact)]).filter
            (fun c => c.deletedAt == none &&
              (c.id == n + 1 || c.linkedId == some (n + 1)))) =
        [(⟨n + 1, e, p, none, .primary, n + 1, none⟩ : Contact)]
      rw [hfilter]
      rfl

/-- C7: for every successful identify response, `emails` and `phoneNumbers`
are duplicate-free and ordered by first-introduction rank — the Primary's
own values (rank 0) before any Secondary's (one plus the earliest carrying
secondary's `createdAt`) — and `secondaryContactIds` lists exactly the
Secondary ids of the consolidated chain in ascending `createdAt` order.  The
chain is the one the response was built from: a chain query on the final
store whose primary is a minimal-`createdAt` primary row, with
`primaryContactId` naming it. -/
theorem C7_consolidated_output_ordering (s : Store) (e p : Option String)
    (cc : ConsolidatedContact) (hwf : WellFormed s)
    (hok : (identifyContact s e p).1 = Except.ok cc) :
    cc.emails.Nodup ∧ cc.phoneNumbers.Nodup ∧
    ∃ root pc secs,
      pc ∈ getAllLinkedContacts (identifyContact s e p).2 root ∧
      pc.linkPrecedence = LinkPrecedence.primary ∧
      (∀ q ∈ getAllLinkedContacts (identifyContact s e p).2 root,
        q.linkPrecedence = LinkPrecedence.primary → pc.createdAt ≤ q.createdAt) ∧
      cc.primaryContactId = pc.id ∧
      secs.Perm ((getAllLinkedContacts (identifyContact s e p).2 root).filter
        (fun c => c.linkPrecedence == LinkPrecedence.secondary)) ∧
      List.Pairwise (fun a b : Contact => a.createdAt ≤ b.createdAt) secs ∧
      cc.secondaryContactIds = secs.map (fun c => c.id) ∧
      (∀ v, v ∈ cc.emails ↔ pc.email = some v ∨ ∃ c ∈ secs, c.email = some v) ∧
      cc.emails.Pairwise (fun v w =>
        introKey (fun c => c.email) pc secs v ≤ introKey (fun c => c.email) pc secs w) ∧
      (∀ v, v ∈ cc.phoneNumbers ↔
        pc.phoneNumber = some v ∨ ∃ c ∈ secs, c.phoneNumber = some v) ∧
      cc.phoneNumbers.Pairwise (fun v w =>
        introKey (fun c => c.phoneNumber) pc secs v ≤
          introKey (fun c => c.phoneNumber) pc secs w) := by
  rcases identify_ok_cases s e p with ⟨pid, hall⟩ | heq
  · obtain ⟨pc, secs, h1, h2, h3, h4, h5, h6, h7, h8, h9, h10, h11, h12, h13⟩ :=
      consolidateContactInfo_spec _ pid cc (hall cc hok)
    exact ⟨h8, h11, pid, pc, secs, h1, h2, h3, h4, h5, h6, h7, h9, h10, h12, h13⟩
  · rw [heq] at hok ⊢
    have hcc : cc = ⟨s.nextId, e.toList, p.toList, []⟩ := (Except.ok.inj hok).symm
    subst hcc
    have h2 : (handleNoExistingContacts s e p).2 = (createPrimaryContact s e p).2 := rfl
    rw [h2]
    have hchain : getAllLinkedContacts (createPrimaryContact s e p).2 s.nextId =
        [(⟨s.nextId, e, p, none, .primary, s.nextId, none⟩ : Contact)] :=
      chain_of_fresh_primary s e p hwf
    refine ⟨by cases e <;> simp, by cases p <;> simp,
      s.nextId, ⟨s.nextId, e, p, none, .primary, s.nextId, none⟩, [], ?_, rfl, ?_, rfl,
      ?_, List.Pairwise.nil, rfl, ?_, ?_, ?_, ?_⟩
    · rw [hchain]
      exact List.mem_singleton.mpr rfl
    · intro q hq _
      rw [hchain] at hq
      rw [List.mem_singleton.mp hq]
    · rw [hchain]
      exact List.Perm.nil
    · intro v
      cases e <;> simp [eq_comm]
    · cases e <;> simp
    · intro v
      cases p <;> simp [eq_comm]
    · cases p <;> simp

/-- C7 witness: the ordering theorem at the concrete merge-scenario store
with request ("a","2"). -/
theorem C7_consolidated_output_ordering_witness :
    WellFormed mergeScenarioStore ∧
    (identifyContact mergeScenarioStore (some "a") (some "2")).1 =
      Except.ok ⟨1, ["a", "b"], ["1", "2"], [2]⟩ ∧
    (⟨1, ["a", "b"], ["1", "2"], [2]⟩ : ConsolidatedContact).emails.Nodup ∧
    (⟨1, ["a", "b"], ["1", "2"], [2]⟩ : ConsolidatedContact).phoneNumbers.Nodup ∧
    (∃ root pc secs,
      pc ∈ getAllLinkedContacts
        (identifyContact mergeScenarioStore (some "a") (some "2")).2 root ∧
      pc.linkPrecedence = LinkPrecedence.primary ∧
      (∀ q ∈ getAllLinkedContacts
          (identifyContact mergeScenarioStore (some "a") (some "2")).2 root,
        q.linkPrecedence = LinkPrecedence.primary → pc.createdAt ≤ q.createdAt) ∧
      (⟨1, ["a", "b"], ["1", "2"], [2]⟩ :
        ConsolidatedContact).primaryContactId = pc.id ∧
      secs.Perm ((getAllLinkedContacts
          (identifyContact mergeScenarioStore (some "a") (some "2")).2 root).filter
        (fun c => c.linkPrecedence == LinkPrecedence.secondary)) ∧
      List.Pairwise (fun a b : Contact => a.createdAt ≤ b.createdAt) secs ∧
      (⟨1, ["a", "b"], ["1", "2"], [2]⟩ :
        ConsolidatedContact).secondaryContactIds = secs.map (fun c => c.id) ∧
      (∀ v, v ∈ (⟨1, ["a", "b"], ["1", "2"], [2]⟩ :
          ConsolidatedContact).emails ↔
        pc.email = some v ∨ ∃ c ∈ secs, c.email = some v) ∧
      (⟨1, ["a", "b"], ["1", "2"], [2]⟩ :
        ConsolidatedContact).emails.Pairwise (fun v w =>
          introKey (fun c => c.email) pc secs v ≤ introKey (fun c => c.email) pc secs w) ∧
      (∀ v, v ∈ (⟨1, ["a", "b"], ["1", "2"], [2]⟩ :
          ConsolidatedContact).phoneNumbers ↔
        pc.phoneNumber = some v ∨ ∃ c ∈ secs, c.phoneNumber = some v) ∧
      (⟨1, ["a", "b"], ["1", "2"], [2]⟩ :
        ConsolidatedContact).phoneNumbers.Pairwise (fun v w =>
          introKey (fun c => c.phoneNumber) pc secs v ≤
            introKey (fun c => c.phoneNumber) pc secs w)) := by
  refine ⟨by decide, by decide, ?_⟩
  have h := C7_consolidated_output_ordering mergeScenarioStore (some "a") (some "2")
    ⟨1, ["a", "b"], ["1", "2"], [2]⟩ (by decide) (by decide)
  exact h

theorem contains_iff_mem (L : List Nat) (i : Nat) : L.contains i = true ↔ i ∈ L := by
  simp [List.contains]

theorem unprocCount_le (l : List Contact) (proc : List Nat) :
    unprocCount l proc ≤ l.length :=
  List.length_filter_le _ _

theorem unprocCount_cons (x : Contact) (rest : List Contact) (proc : List Nat) :
    unprocCount (x :: rest) proc =
      (if x.id ∈ proc then 0 else 1) + unprocCount rest proc := by
  by_cases h : x.id ∈ proc <;> simp [unprocCount, List.filter_cons, h] <;> omega

theorem unprocCount_mono (l : List Contact) (p q : List Nat)
    (h : ∀ i ∈ p, i ∈ q) : unprocCount l q ≤ unprocCount l p := by
  induction l with
  | nil => simp [unprocCount]
  | cons x rest ih =>
      rw [unprocCount_cons, unprocCount_cons]
      by_cases hp : x.id ∈ p
      · have hq : x.id ∈ q := h _ hp
        simp only [hp, hq, if_true]
        omega
      · by_cases hq : x.id ∈ q <;> simp only [hp, hq, if_true, if_false] <;> omega

theorem unprocCount_strict (l : List Contact) (proc : List Nat) (c : Contact)
    (hc : c ∈ l) (hp : c.id ∉ proc) :
    unprocCount l (proc ++ [c.id]) < unprocCount l proc := by
  induction l with
  | nil => cases hc
  | cons x rest ih =>
      rw [unprocCount_cons, unprocCount_cons]
      rcases List.mem_cons.mp hc with rfl | hc'
      · have h2 : c.id ∈ proc ++ [c.id] := by simp
        have hmono := unprocCount_mono rest proc (proc ++ [c.id])
          (fun i hi => List.mem_append_left _ hi)
        simp only [hp, h2, if_true, if_false]
        omega
      · have hlt := ih hc'
        by_cases hx : x.id ∈ proc
        · have hx2 : x.id ∈ proc ++ [c.id] := List.mem_append_left _ hx
          simp only [hx, hx2, if_true]
          omega
        · by_cases hx2 : x.id ∈ proc ++ [c.id] <;>
            simp only [hx, hx2, if_true, if_false] <;> omega

theorem shouldLink_symm (a b : Contact) (h : shouldLink a b = true) :
    shouldLink b a = true := by
  simp only [shouldLink, hasSharedEmail, hasSharedPhone, Bool.or_eq_true,
    Bool.and_eq_true, beq_iff_eq] at h ⊢
  tauto

theorem Linked_mem (l : List Contact) (c d : Contact) (hc : c ∈ l)
    (h : Linked l c d) : d ∈ l := by
  induction h with
  | refl => exact hc
  | tail _ hstep _ => exact hstep.1

theorem Linked_symm (l : List Contact) (c d : Contact) (hc : c ∈ l)
    (h : Linked l c d) : Linked l d c := by
  induction h with
  | refl => exact Relation.ReflTransGen.refl
  | tail hcb hstep ih =>
      have hb : _ ∈ l := Linked_mem l c _ hc hcb
      exact Relation.ReflTransGen.trans
        (Relation.ReflTransGen.single ⟨hb, shouldLink_symm _ _ hstep.2⟩) ih

theorem Linked_congr (l m : List Contact) (hmem : ∀ x, x ∈ l ↔ x ∈ m)
    (c d : Contact) (h : Linked l c d) : Linked m c d := by
  induction h with
  | refl => exact Relation.ReflTransGen.refl
  | tail _ hstep ih =>
      exact Relation.ReflTransGen.tail ih ⟨(hmem _).mp hstep.1, hstep.2⟩

theorem isolated_of_no_neighbors (l : List Contact) (c : Contact) (hc : c ∈ l)
    (h : ∀ x ∈ l, shouldLink c x = true → x = c) : Isolated l c := by
  intro d hd hlink
  clear hd
  induction hlink with
  | refl => rfl
  | tail hcb hstep ih =>
      have hb := ih
      subst hb
      exact h _ hstep.1 hstep.2

theorem findLinkedContacts_sound (l : List Contact) :
    ∀ fuel base grp proc, ∃ Δ : List Contact,
      findLinkedContacts l fuel base (grp, proc) =
        (grp ++ Δ, proc ++ Δ.map (fun c => c.id)) ∧
      (∀ x ∈ Δ, x ∈ l ∧ Linked l base x ∧ x.id ∉ proc) ∧
      (Δ.map (fun c => c.id)).Nodup := by
  intro fuel
  induction fuel with
  | zero =>
      intro base grp proc
      exact ⟨[], by simp [findLinkedContacts], by simp, by simp⟩
  | succ fuel ih =>
      intro base grp proc
      have aux : ∀ L : List Contact, (∀ c ∈ L, c ∈ l) → ∀ grp proc,
          ∃ Δ : List Contact,
            L.foldl (fun st contact =>
                if !(st.2.contains contact.id) && shouldLink base contact then
                  findLinkedContacts l fuel contact
                    (st.1 ++ [contact], st.2 ++ [contact.id])
                else st) (grp, proc) =
              (grp ++ Δ, proc ++ Δ.map (fun c => c.id)) ∧
            (∀ x ∈ Δ, x ∈ l ∧ Linked l base x ∧ x.id ∉ proc) ∧
            (Δ.map (fun c => c.id)).Nodup := by
        intro L
        induction L with
        | nil =>
            intro _ grp proc
            exact ⟨[], by simp, by simp, by simp⟩
        | cons contact rest ihL =>
            intro hsub grp proc
            have hcl : contact ∈ l := hsub _ (List.mem_cons_self _ _)
            have hrl : ∀ c ∈ rest, c ∈ l :=
              fun c hc => hsub _ (List.mem_cons_of_mem _ hc)
            simp only [List.foldl_cons]
            by_cases hcond :
                (!(proc.contains contact.id) && shouldLink base contact) = true
            · have hcc : contact.id ∉ proc ∧ shouldLink base contact = true := by
                simpa using hcond
              rw [if_pos hcond]
              obtain ⟨Δ₁, he₁, hp₁, hn₁⟩ :=
                ih contact (grp ++ [contact]) (proc ++ [contact.id])
              rw [he₁]
              obtain ⟨Δ₂, he₂, hp₂, hn₂⟩ := ihL hrl ((grp ++ [contact]) ++ Δ₁)
                ((proc ++ [contact.id]) ++ Δ₁.map (fun c => c.id))
              rw [he₂]
              refine ⟨contact :: (Δ₁ ++ Δ₂), ?_, ?_, ?_⟩
              · simp
              · intro x hx
                rcases List.mem_cons.mp hx with rfl | hx'
                · exact ⟨hcl, Relation.ReflTransGen.single ⟨hcl, hcc.2⟩, hcc.1⟩
                rcases List.mem_append.mp hx' with hx1 | hx2
                · obtain ⟨hxl, hxlink, hxf⟩ := hp₁ x hx1
                  refine ⟨hxl, Relation.ReflTransGen.trans
                    (Relation.ReflTransGen.single ⟨hcl, hcc.2⟩) hxlink, ?_⟩
                  intro hmem
                  exact hxf (List.mem_append_left _ hmem)
                · obtain ⟨hxl, hxlink, hxf⟩ := hp₂ x hx2
                  refine ⟨hxl, hxlink, ?_⟩
                  intro hmem
                  exact hxf (List.mem_append_left _ (List.mem_append_left _ hmem))
              · simp only [List.map_cons, List.map_append, List.nodup_cons,
                  List.nodup_append]
                refine ⟨?_, hn₁, hn₂, ?_⟩
                · intro hmem
                  rcases List.mem_append.mp hmem with h1 | h2
                  · obtain ⟨x, hx, hxid⟩ := List.mem_map.mp h1
                    exact (hp₁ x hx).2.2 (by rw [hxid]; simp)
                  · obtain ⟨x, hx, hxid⟩ := List.mem_map.mp h2
                    exact (hp₂ x hx).2.2
                      (List.mem_append_left _ (by rw [hxid]; simp))
                · intro i hi₁ hi₂
                  obtain ⟨x, hx, hxid⟩ := List.mem_map.mp hi₂
                  apply (hp₂ x hx).2.2
                  apply List.mem_append_right
                  rw [hxid]
                  exact hi₁
            · rw [if_neg hcond]
              exact ihL hrl grp proc
      simpa only [findLinkedContacts] using aux l (fun c hc => hc) grp proc

theorem findLinkedContacts_complete (l : List Contact) :
    ∀ fuel base grp proc, unprocCount l proc ≤ fuel →
      (∀ x ∈ l, shouldLink base x = true →
        x.id ∈ (findLinkedContacts l fuel base (grp, proc)).2) ∧
      (∀ i, i ∈ (findLinkedContacts l fuel base (grp, proc)).2 →
        i ∈ proc ∨ ∃ z ∈ l, z.id = i ∧ ∀ x ∈ l, shouldLink z x = true →
          x.id ∈ (findLinkedContacts l fuel base (grp, proc)).2) := by
  intro fuel
  induction fuel with
  | zero =>
      intro base grp proc hbound
      have hall : ∀ x ∈ l, x.id ∈ proc := by
        intro x hx
        have h0 : l.filter (fun x => !(proc.contains x.id)) = [] :=
          List.length_eq_zero.mp (Nat.le_zero.mp hbound)
        have := List.filter_eq_nil_iff.mp h0 x hx
        simpa using this
      simp only [findLinkedContacts]
      exact ⟨fun x hx _ => hall x hx, fun i hi => Or.inl hi⟩
  | succ fuel ih =>
      intro base grp proc hbound
      have aux : ∀ L : List Contact, (∀ c ∈ L, c ∈ l) →
          ∀ st : List Contact × List Nat, unprocCount l st.2 ≤ fuel + 1 →
          (∀ i ∈ st.2, i ∈ (L.foldl (fun st contact =>
              if !(st.2.contains contact.id) && shouldLink base contact then
                findLinkedContacts l fuel contact
                  (st.1 ++ [contact], st.2 ++ [contact.id])
              else st) st).2) ∧
          (∀ x ∈ L, shouldLink base x = true → x.id ∈ (L.foldl (fun st contact =>
              if !(st.2.contains contact.id) && shouldLink base contact then
                findLinkedContacts l fuel contact
                  (st.1 ++ [contact], st.2 ++ [contact.id])
              else st) st).2) ∧
          (∀ i, i ∈ (L.foldl (fun st contact =>
              if !(st.2.contains contact.id) && shouldLink base contact then
                findLinkedContacts l fuel contact
                  (st.1 ++ [contact], st.2 ++ [contact.id])
              else st) st).2 →
            i ∈ st.2 ∨ ∃ z ∈ l, z.id = i ∧ ∀ x ∈ l, shouldLink z x = true →
              x.id ∈ (L.foldl (fun st contact =>
                if !(st.2.contains contact.id) && shouldLink base contact then
                  findLinkedContacts l fuel contact
                    (st.1 ++ [contact], st.2 ++ [contact.id])
                else st) st).2) := by
        intro L
        induction L with
        | nil =>
            intro _ st hst
            exact ⟨fun i hi => hi, fun x hx => absurd hx (List.not_mem_nil x),
              fun i hi => Or.inl hi⟩
        | cons contact rest ihL =>
            intro hsub st hst
            have hcl : contact ∈ l := hsub _ (List.mem_cons_self _ _)
            have hrl : ∀ c ∈ rest, c ∈ l :=
              fun c hc => hsub _ (List.mem_cons_of_mem _ hc)
            simp only [List.foldl_cons]
            by_cases hcond :
                (!(st.2.contains contact.id) && shouldLink base contact) = true
            · have hcc : contact.id ∉ st.2 ∧ shouldLink base contact = true := by
                simpa using hcond
              rw [if_pos hcond]
              obtain ⟨Δ₁, he₁, hp₁, hn₁⟩ :=
                findLinkedContacts_sound l fuel contact (st.1 ++ [contact])
                  (st.2 ++ [contact.id])
              have hb₁ : unprocCount l (st.2 ++ [contact.id]) ≤ fuel := by
                have := unprocCount_strict l st.2 contact hcl hcc.1
                omega
              obtain ⟨hi₁, hii₁⟩ :=
                ih contact (st.1 ++ [contact]) (st.2 ++ [contact.id]) hb₁
              have hmono₁ : ∀ i ∈ st.2,
                  i ∈ (findLinkedContacts l fuel contact
                    (st.1 ++ [contact], st.2 ++ [contact.id])).2 := by
                intro i hi
                rw [he₁]
                exact List.mem_append_left _ (List.mem_append_left _ hi)
              have hmemc : contact.id ∈ (findLinkedContacts l fuel contact
                  (st.1 ++ [contact], st.2 ++ [contact.id])).2 := by
                rw [he₁]
                exact List.mem_append_left _ (by simp)
              have hb₂ : unprocCount l (findLinkedContacts l fuel contact
                  (st.1 ++ [contact], st.2 ++ [contact.id])).2 ≤ fuel + 1 := by
                have := unprocCount_mono l st.2
                  (findLinkedContacts l fuel contact
                    (st.1 ++ [contact], st.2 ++ [contact.id])).2 hmono₁
                omega
              obtain ⟨ha₂, hb₂', hc₂⟩ := ihL hrl
                (findLinkedContacts l fuel contact
                  (st.1 ++ [contact], st.2 ++ [contact.id])) hb₂
              refine ⟨?_, ?_, ?_⟩
              · intro i hi
                exact ha₂ _ (hmono₁ i hi)
              · intro x hx hlx
                rcases List.mem_cons.mp hx with rfl | hx'
                · exact ha₂ _ hmemc
                · exact hb₂' x hx' hlx
              · intro i hi
                rcases hc₂ i hi with hi' | hz
                · rcases hii₁ i hi' with hi'' | ⟨z, hzl, hzi, hcov⟩
                  · rcases List.mem_append.mp hi'' with h | h
                    · exact Or.inl h
                    · refine Or.inr ⟨contact, hcl, ?_, ?_⟩
                      · exact (List.mem_singleton.mp h).symm
                      · intro x hxl hlx
                        exact ha₂ _ (hi₁ x hxl hlx)
                  · exact Or.inr ⟨z, hzl, hzi,
                      fun x hxl hlx => ha₂ _ (hcov x hxl hlx)⟩
                · exact Or.inr hz
            · rw [if_neg hcond]
              obtain ⟨ha₂, hb₂', hc₂⟩ := ihL hrl st hst
              refine ⟨ha₂, ?_, hc₂⟩
              intro x hx hlx
              rcases List.mem_cons.mp hx with rfl | hx'
              · have hmem : x.id ∈ st.2 := by
                  by_contra hnm
                  apply hcond
                  simp [hlx, hnm]
                exact ha₂ _ hmem
              · exact hb₂' x hx' hlx
      have hmain := aux l (fun c hc => hc) (grp, proc) hbound
      simp only [findLinkedContacts]
      exact ⟨hmain.2.1, hmain.2.2⟩

theorem inj_of_nodup_ids (l : List Contact)
    (hnd : (l.map (fun c => c.id)).Nodup) :
    ∀ a ∈ l, ∀ b ∈ l, a.id = b.id → a = b := by
  intro a ha b hb hab
  exact List.inj_on_of_nodup_map hnd ha hb hab

theorem groupLinkableGo_spec (l : List Contact)
    (hnd : (l.map (fun c => c.id)).Nodup) :
    ∀ pending : List Contact, ∀ proc groups,
      (∀ c ∈ pending, c ∈ l) →
      procClosed l proc →
      (∀ c ∈ l, c.id ∉ proc → c ∈ pending) →
      (∀ g ∈ groups, GroupOK l g) →
      GroupsDisjoint groups →
      (∀ g ∈ groups, ∀ x ∈ g, x.id ∈ proc) →
      (∀ c ∈ l, c.id ∈ proc → (∃ g ∈ groups, c ∈ g) ∨ Isolated l c) →
      (∀ g ∈ groupLinkableGo l pending proc groups, GroupOK l g) ∧
      GroupsDisjoint (groupLinkableGo l pending proc groups) ∧
      (∀ c ∈ l, (∃ g ∈ groupLinkableGo l pending proc groups, c ∈ g) ∨
        Isolated l c) := by
  have hinj := inj_of_nodup_ids l hnd
  intro pending
  induction pending with
  | nil =>
      intro proc groups h1 h2 h3 h4 h5 h6 h7
      simp only [groupLinkableGo]
      refine ⟨h4, h5, ?_⟩
      intro c hc
      by_cases hcp : c.id ∈ proc
      · exact h7 c hc hcp
      · exact absurd (h3 c hc hcp) (List.not_mem_nil c)
  | cons contact rest ih =>
      intro proc groups h1 h2 h3 h4 h5 h6 h7
      have hcl : contact ∈ l := h1 _ (List.mem_cons_self _ _)
      have hrl : ∀ c ∈ rest, c ∈ l :=
        fun c hc => h1 _ (List.mem_cons_of_mem _ hc)
      simp only [groupLinkableGo]
      by_cases hpc : proc.contains contact.id = true
      · rw [if_pos hpc]
        have hpm : contact.id ∈ proc := (contains_iff_mem _ _).mp hpc
        refine ih proc groups hrl h2 ?_ h4 h5 h6 h7
        intro c hc hcp
        rcases List.mem_cons.mp (h3 c hc hcp) with rfl | hr
        · exact absurd hpm hcp
        · exact hr
      · rw [if_neg hpc]
        have hfresh : contact.id ∉ proc :=
          fun hm => hpc ((contains_iff_mem _ _).mpr hm)
        obtain ⟨Δ, he, hp, hn⟩ := findLinkedContacts_sound l l.length contact
          [contact] (proc ++ [contact.id])
        obtain ⟨hi₁, hii₁⟩ := findLinkedContacts_complete l l.length contact
          [contact] (proc ++ [contact.id]) (unprocCount_le _ _)
        simp only [he]
        have hΔl : ∀ x ∈ Δ, x ∈ l := fun x hx => (hp x hx).1
        have hΔlink : ∀ x ∈ Δ, Linked l contact x := fun x hx => (hp x hx).2.1
        have hΔf : ∀ x ∈ Δ, x.id ∉ proc ++ [contact.id] :=
          fun x hx => (hp x hx).2.2
        have hΔfp : ∀ x ∈ Δ, x.id ∉ proc :=
          fun x hx hm => hΔf x hx (List.mem_append_left _ hm)
        have hΔfc : ∀ x ∈ Δ, x.id ≠ contact.id :=
          fun x hx hm => hΔf x hx (List.mem_append_right _ (by simp [hm]))
        have hcov : ∀ x ∈ l, shouldLink contact x = true →
            x.id ∈ (proc ++ [contact.id]) ++ Δ.map (fun c => c.id) := by
          intro x hx hlx
          have := hi₁ x hx hlx
          rwa [he] at this
        have hcovΔ : ∀ z ∈ Δ, ∀ x ∈ l, shouldLink z x = true →
            x.id ∈ (proc ++ [contact.id]) ++ Δ.map (fun c => c.id) := by
          intro z hz x hx hlx
          have hzmem : z.id ∈ (findLinkedContacts l l.length contact
              ([contact], proc ++ [contact.id])).2 := by
            rw [he]
            exact List.mem_append_right _ (List.mem_map.mpr ⟨z, hz, rfl⟩)
          rcases hii₁ z.id hzmem with hm | ⟨w, hwl, hwz, hcw⟩
          · exact absurd hm (hΔf z hz)
          · have hwzeq : w = z := hinj w hwl z (hΔl z hz) hwz
            subst hwzeq
            have := hcw x hx hlx
            rwa [he] at this
        simp only [List.singleton_append]
        have hgrpcov : ∀ y ∈ contact :: Δ, ∀ x ∈ l, shouldLink y x = true →
            x.id ∈ (contact :: Δ).map (fun c => c.id) := by
          intro y hy x hx hlx
          have hxid : x.id ∈ (proc ++ [contact.id]) ++ Δ.map (fun c => c.id) := by
            rcases List.mem_cons.mp hy with rfl | hy'
            · exact hcov x hx hlx
            · exact hcovΔ y hy' x hx hlx
          have hyl : y ∈ l := by
            rcases List.mem_cons.mp hy with rfl | hy'
            · exact hcl
            · exact hΔl y hy'
          have hynp : y.id ∉ proc := by
            rcases List.mem_cons.mp hy with rfl | hy'
            · exact hfresh
            · exact hΔfp y hy'
          rcases List.mem_append.mp hxid with hxp | hxΔ
          · rcases List.mem_append.mp hxp with hxp' | hxc
            · exact absurd
                (h2 x hx hxp' y hyl (shouldLink_symm _ _ hlx)) hynp
            · simp only [List.map_cons, List.mem_cons]
              exact Or.inl (by simpa using hxc)
          · simp only [List.map_cons, List.mem_cons]
            exact Or.inr hxΔ
        have hclosedN :
            procClosed l ((proc ++ [contact.id]) ++ Δ.map (fun c => c.id)) := by
          intro y hy hyp x hx hlx
          rcases List.mem_append.mp hyp with hyp' | hyΔ
          · rcases List.mem_append.mp hyp' with hyp2 | hyc
            · exact List.mem_append_left _
                (List.mem_append_left _ (h2 y hy hyp2 x hx hlx))
            · have hyeq : y = contact := hinj y hy contact hcl (by simpa using hyc)
              subst hyeq
              exact hcov x hx hlx
          · obtain ⟨z, hz, hzy⟩ := List.mem_map.mp hyΔ
            have hyz : z = y := hinj z (hΔl z hz) y hy hzy
            subst hyz
            exact hcovΔ z hz x hx hlx
        have h3' : ∀ c ∈ l,
            c.id ∉ (proc ++ [contact.id]) ++ Δ.map (fun c => c.id) →
            c ∈ rest := by
          intro c hc hcp
          have hcp0 : c.id ∉ proc := fun hm =>
            hcp (List.mem_append_left _ (List.mem_append_left _ hm))
          rcases List.mem_cons.mp (h3 c hc hcp0) with rfl | hr
          · exact absurd
              (List.mem_append_left _ (List.mem_append_right _ (by simp))) hcp
          · exact hr
        have h6' : ∀ g ∈ groups, ∀ x ∈ g,
            x.id ∈ (proc ++ [contact.id]) ++ Δ.map (fun c => c.id) :=
          fun g hg x hx => List.mem_append_left _
            (List.mem_append_left _ (h6 g hg x hx))
        by_cases hlen : 1 < (contact :: Δ).length
        · rw [if_pos hlen]
          have hne : Δ ≠ [] := by
            intro hnil
            rw [hnil] at hlen
            simp at hlen
          have hgok : GroupOK l (contact :: Δ) := by
            refine ⟨⟨contact, Δ, rfl, hne, ?_⟩, ?_, ?_, hgrpcov⟩
            · intro x hx
              rcases List.mem_cons.mp hx with rfl | hx'
              · exact Relation.ReflTransGen.refl
              · exact hΔlink x hx'
            · intro x hx
              rcases List.mem_cons.mp hx with rfl | hx'
              · exact hcl
              · exact hΔl x hx'
            · simp only [List.map_cons, List.nodup_cons]
              refine ⟨?_, hn⟩
              intro hm
              obtain ⟨z, hz, hzc⟩ := List.mem_map.mp hm
              exact hΔfc z hz hzc
          refine ih ((proc ++ [contact.id]) ++ Δ.map (fun c => c.id))
            (groups ++ [contact :: Δ]) hrl hclosedN h3' ?_ ?_ ?_ ?_
          · intro g hg
            rcases List.mem_append.mp hg with hg' | hg2
            · exact h4 g hg'
            · rw [List.mem_singleton.mp hg2]
              exact hgok
          · show List.Pairwise _ _
            rw [List.pairwise_append]
            refine ⟨h5, by simp, ?_⟩
            intro a ha b hb
            rw [List.mem_singleton.mp hb]
            intro i hia hib
            obtain ⟨x, hx, hxi⟩ := List.mem_map.mp hia
            have hip : i ∈ proc := hxi ▸ h6 a ha x hx
            obtain ⟨z, hz, hzi⟩ := List.mem_map.mp hib
            rcases List.mem_cons.mp hz with rfl | hz'
            · exact hfresh (hzi ▸ hip)
            · exact hΔfp z hz' (hzi ▸ hip)
          · intro g hg x hx
            rcases List.mem_append.mp hg with hg' | hg2
            · exact h6' g hg' x hx
            · rw [List.mem_singleton.mp hg2] at hx
              rcases List.mem_cons.mp hx with rfl | hx'
              · exact List.mem_append_left _
                  (List.mem_append_right _ (by simp))
              · exact List.mem_append_right _ (List.mem_map.mpr ⟨x, hx', rfl⟩)
          · intro c hc hcp
            rcases List.mem_append.mp hcp with hcp' | hcΔ
            · rcases List.mem_append.mp hcp' with hcpp | hcc
              · rcases h7 c hc hcpp with ⟨g, hg, hcg⟩ | hiso
                · exact Or.inl ⟨g, List.mem_append_left _ hg, hcg⟩
                · exact Or.inr hiso
              · have hceq : c = contact := hinj c hc contact hcl (by simpa using hcc)
                subst hceq
                exact Or.inl ⟨c :: Δ, List.mem_append_right _ (by simp),
                  List.mem_cons_self _ _⟩
            · obtain ⟨z, hz, hzc⟩ := List.mem_map.mp hcΔ
              have hzc2 : z = c := hinj z (hΔl z hz) c hc hzc
              subst hzc2
              exact Or.inl ⟨contact :: Δ, List.mem_append_right _ (by simp),
                List.mem_cons_of_mem _ hz⟩
        · rw [if_neg hlen]
          have hΔnil : Δ = [] := by
            by_contra hne
            apply hlen
            have hpos : 0 < Δ.length := List.length_pos.mpr hne
            simp only [List.length_cons]
            omega
          subst hΔnil
          have hiso : Isolated l contact := by
            apply isolated_of_no_neighbors l contact hcl
            intro x hx hlx
            have hxm := hcov x hx hlx
            simp only [List.map_nil, List.append_nil] at hxm
            rcases List.mem_append.mp hxm with hxp | hxc
            · exact absurd
                (h2 x hx hxp contact hcl (shouldLink_symm _ _ hlx)) hfresh
            · exact hinj x hx contact hcl (by simpa using hxc)
          refine ih _ groups hrl hclosedN h3' h4 h5 h6' ?_
          intro c hc hcp
          rcases List.mem_append.mp hcp with hcp' | hnil
          · rcases List.mem_append.mp hcp' with hcpp | hcc
            · exact h7 c hc hcpp
            · have hceq : c = contact := hinj c hc contact hcl (by simpa using hcc)
              subst hceq
              exact Or.inr hiso
          · simp at hnil

theorem groupLinkableContacts_spec (l : List Contact)
    (hnd : (l.map (fun c => c.id)).Nodup) :
    (∀ g ∈ groupLinkableContacts l, GroupOK l g) ∧
    GroupsDisjoint (groupLinkableContacts l) ∧
    (∀ c ∈ l, (∃ g ∈ groupLinkableContacts l, c ∈ g) ∨ Isolated l c) :=
  groupLinkableGo_spec l hnd l [] []
    (fun _ hc => hc) (fun _ _ hyp => absurd hyp (List.not_mem_nil _))
    (fun c hc _ => hc) (fun _ hg => absurd hg (List.not_mem_nil _))
    List.Pairwise.nil (fun _ hg => absurd hg (List.not_mem_nil _))
    (fun _ _ hcp => absurd hcp (List.not_mem_nil _))

theorem group_component (l : List Contact)
    (hnd : (l.map (fun c => c.id)).Nodup) (g : List Contact)
    (hgok : GroupOK l g) (c : Contact) (hc : c ∈ g) :
    ∀ d, d ∈ l → (Linked l c d ↔ d ∈ g) := by
  have hinj := inj_of_nodup_ids l hnd
  intro d hdl
  constructor
  · intro hlink
    clear hdl
    induction hlink with
    | refl => exact hc
    | tail hcb hstep ih =>
        have hbg := ih
        have hdid := hgok.2.2.2 _ hbg _ hstep.1 hstep.2
        obtain ⟨y, hyg, hyd⟩ := List.mem_map.mp hdid
        have : y = _ := hinj y (hgok.2.1 y hyg) _ hstep.1 hyd
        exact this ▸ hyg
  · intro hdg
    obtain ⟨seed, rest₀, hgeq, _, hall⟩ := hgok.1
    have hseedg : seed ∈ g := by
      rw [hgeq]
      exact List.mem_cons_self _ _
    have hseedl : seed ∈ l := hgok.2.1 seed hseedg
    exact Relation.ReflTransGen.trans
      (Linked_symm l seed c hseedl (hall c hc)) (hall d hdg)

theorem group_partner (l : List Contact)
    (hnd : (l.map (fun c => c.id)).Nodup) (g : List Contact)
    (hgok : GroupOK l g) (c : Contact) (hc : c ∈ g) :
    ∃ e ∈ l, e ≠ c ∧ Linked l c e := by
  obtain ⟨seed, rest₀, hgeq, hne, _⟩ := hgok.1
  rcases rest₀ with _ | ⟨e₀, rest₂⟩
  · exact absurd rfl hne
  have hseedg : seed ∈ g := by
    rw [hgeq]
    exact List.mem_cons_self _ _
  have he₀g : e₀ ∈ g := by
    rw [hgeq]
    exact List.mem_cons_of_mem _ (List.mem_cons_self _ _)
  have hse : seed ≠ e₀ := by
    intro hcontr
    have hnodup := hgok.2.2.1
    rw [hgeq] at hnodup
    simp only [List.map_cons, List.nodup_cons] at hnodup
    exact hnodup.1 (by rw [hcontr]; exact List.mem_cons_self _ _)
  by_cases hcs : c = seed
  · refine ⟨e₀, hgok.2.1 e₀ he₀g, ?_, ?_⟩
    · intro hcontr
      exact hse (hcs ▸ hcontr.symm)
    · exact (group_component l hnd g hgok c hc e₀ (hgok.2.1 e₀ he₀g)).mpr he₀g
  · refine ⟨seed, hgok.2.1 seed hseedg, fun hcontr => hcs hcontr.symm, ?_⟩
    exact (group_component l hnd g hgok c hc seed (hgok.2.1 seed hseedg)).mpr hseedg

theorem SameGroup_iff (l : List Contact)
    (hnd : (l.map (fun c => c.id)).Nodup) (c d : Contact) :
    SameGroup l c d ↔
      c ∈ l ∧ d ∈ l ∧ Linked l c d ∧ ∃ e ∈ l, e ≠ c ∧ Linked l c e := by
  obtain ⟨hok, hdisj, hcover⟩ := groupLinkableContacts_spec l hnd
  constructor
  · rintro ⟨g, hg, hcg, hdg⟩
    have hgok := hok g hg
    have hcl : c ∈ l := hgok.2.1 c hcg
    have hdl : d ∈ l := hgok.2.1 d hdg
    exact ⟨hcl, hdl, (group_component l hnd g hgok c hcg d hdl).mpr hdg,
      group_partner l hnd g hgok c hcg⟩
  · rintro ⟨hcl, hdl, hlink, e, hel, hene, hce⟩
    rcases hcover c hcl with ⟨g, hg, hcg⟩ | hiso
    · exact ⟨g, hg, hcg,
        (group_component l hnd g (hok g hg) c hcg d hdl).mp hlink⟩
    · exact absurd (hiso e hel hce) hene

theorem countP_mem_groups (groups : List (List Contact))
    (hdisj : GroupsDisjoint groups) (g : List Contact) (hg : g ∈ groups)
    (c : Contact) (hc : c ∈ g) :
    groups.countP (fun h => decide (c ∈ h)) = 1 := by
  induction groups with
  | nil => cases hg
  | cons g₁ t ihg =>
      have hpc := List.pairwise_cons.mp hdisj
      rcases List.mem_cons.mp hg with rfl | hgt
      · have h0 : t.countP (fun h => decide (c ∈ h)) = 0 := by
          apply List.countP_eq_zero.mpr
          intro h ht
          simp only [decide_eq_true_eq]
          intro hch
          exact hpc.1 h ht c.id (List.mem_map.mpr ⟨c, hc, rfl⟩)
            (List.mem_map.mpr ⟨c, hch, rfl⟩)
        rw [List.countP_cons]
        simp [h0, hc]
      · have hcg1 : c ∉ g₁ := fun hch =>
          hpc.1 g hgt c.id (List.mem_map.mpr ⟨c, hch, rfl⟩)
            (List.mem_map.mpr ⟨c, hc, rfl⟩)
        rw [List.countP_cons]
        simp [hcg1, ihg hpc.2 hgt]

/-- C8 (amended): `groupLinkableContacts` computes the connected components
of size at least two of the shared-attribute graph.  With duplicate-free ids:
a contact with a shared-attribute path to some other contact lies in exactly
one computed group; a contact with no such path lies in no group; two
contacts share a group exactly when both are in the input, one reaches the
other through shared attributes, and the first is not isolated; and group
membership is invariant under any reordering of the input scan. -/
theorem C8_groups_are_linked_components (l : List Contact)
    (hnd : (l.map (fun c => c.id)).Nodup) :
    (∀ c ∈ l, (∃ d ∈ l, d ≠ c ∧ Linked l c d) →
      (groupLinkableContacts l).countP (fun g => decide (c ∈ g)) = 1) ∧
    (∀ c ∈ l, (∀ d ∈ l, Linked l c d → d = c) →
      ∀ g ∈ groupLinkableContacts l, c ∉ g) ∧
    (∀ c d, SameGroup l c d ↔
      c ∈ l ∧ d ∈ l ∧ Linked l c d ∧ ∃ e ∈ l, e ≠ c ∧ Linked l c e) ∧
    (∀ l₂, l.Perm l₂ → ∀ c d, SameGroup l c d ↔ SameGroup l₂ c d) := by
  obtain ⟨hok, hdisj, hcover⟩ := groupLinkableContacts_spec l hnd
  refine ⟨?_, ?_, fun c d => SameGroup_iff l hnd c d, ?_⟩
  · rintro c hc ⟨d, hd, hdc, hlink⟩
    rcases hcover c hc with ⟨g, hg, hcg⟩ | hiso
    · exact countP_mem_groups _ hdisj g hg c hcg
    · exact absurd (hiso d hd hlink) hdc
  · intro c hc hiso g hg hcg
    obtain ⟨e, hel, hene, hce⟩ := group_partner l hnd g (hok g hg) c hcg
    exact hene (hiso e hel hce)
  · intro l₂ hperm c d
    have hnd₂ : (l₂.map (fun c => c.id)).Nodup :=
      ((hperm.map _).nodup_iff).mp hnd
    have hmem : ∀ x : Contact, x ∈ l ↔ x ∈ l₂ := fun _ => hperm.mem_iff
    rw [SameGroup_iff l hnd c d, SameGroup_iff l₂ hnd₂ c d]
    constructor
    · rintro ⟨h1, h2, h3, e, he, hne, hle⟩
      exact ⟨(hmem c).mp h1, (hmem d).mp h2, Linked_congr l l₂ hmem c d h3,
        e, (hmem e).mp he, hne, Linked_congr l l₂ hmem c e hle⟩
    · rintro ⟨h1, h2, h3, e, he, hne, hle⟩
      exact ⟨(hmem c).mpr h1, (hmem d).mpr h2,
        Linked_congr l₂ l (fun x => (hmem x).symm) c d h3,
        e, (hmem e).mpr he, hne, Linked_congr l₂ l (fun x => (hmem x).symm) c e hle⟩

/-- C8 witness: in the three-contact scenario, the contact sharing email
"a" lies in exactly one group and the isolated contact lies in none. -/
theorem C8_groups_are_linked_components_witness :
    ((c8IsoStore.map (fun c => c.id)).Nodup) ∧
    (groupLinkableContacts c8IsoStore).countP
      (fun g => decide ((⟨1, some "a", some "1", none, .primary, 1, none⟩ :
        Contact) ∈ g)) = 1 ∧
    (∀ g ∈ groupLinkableContacts c8IsoStore,
      (⟨3, some "b", some "3", none, .primary, 3, none⟩ : Contact) ∉ g) := by
  refine ⟨by decide, ?_, ?_⟩
  · exact (C8_groups_are_linked_components c8IsoStore (by decide)).1
      ⟨1, some "a", some "1", none, .primary, 1, none⟩ (by decide)
      ⟨⟨2, some "a", some "2", none, .secondary, 2, none⟩, by decide, by decide,
        Relation.ReflTransGen.single ⟨by decide, by decide⟩⟩
  · exact (C8_groups_are_linked_components c8IsoStore (by decide)).2.1
      ⟨3, some "b", some "3", none, .primary, 3, none⟩ (by decide)
      (isolated_of_no_neighbors c8IsoStore _ (by decide) (by decide))

end Bitespeed
